import Mathlib

/-!
# Verification of the rh-pos sale-processing and tenant-scoping core

This file is a shallow embedding, in Lean 4, of the core of the rh-pos
point-of-sale backend: the sale-processing service
(`internal/usecase/transaction_service.go`), the product service
(`internal/usecase/product_service.go`), the report service
(`internal/usecase/report_service.go`), the corresponding repositories
(`internal/repository/transaction_repository.go` and the product repository),
and the reversible identifier codec (`pkg/hash`, built on the go-hashids v2
library).

Modelling conventions:
* Currency amounts are Go `float64` in the source; they are modelled as exact
  rationals (`Rat`).  Every arithmetic step of the source (per-line
  accumulation, the discount factor, the tolerance-free equality test) is
  mirrored one-for-one, so the claims about the *algorithm* are captured
  exactly; float rounding itself is not modelled.
* Go `int` quantities and stock counters are modelled as unbounded `Int`.
* The per-request context bag is modelled by the value of
  `ctx.Value("tenant_id")`: an `Option Nat` (the JWT middleware stores the
  decoded tenant id under that key; `none` means the key is absent).
* A GORM `WHERE tenant_id = ?` comparison against an SQL value `v` matches a
  row only when both the row's column and `v` are non-NULL and equal; a NULL
  on either side never matches (`tenantEq` below).
* The database is a pair of tables (products, transactions) plus the
  auto-increment counters.  Each service call maps a database state to a new
  state and a result.  A GORM transaction whose closure returns an error rolls
  back: the original state is returned unchanged.
* Reads issued through `s.productRepo` inside the `createSale` closure use the
  repository's own connection, not the enclosing transaction handle `tx`, so
  they observe the state committed *before* the atomic unit began; only the
  writes issued through `tx` become visible, all at once, at commit.  The
  embedding therefore reads from the entry state and accumulates the pending
  `tx` writes separately.
* Row ids of `transaction_items`, GORM timestamps and the image-storage
  collaborator are not modelled: no claim mentions them.
-/

section
/- Batteries marks the `Rat` arithmetic operations `@[irreducible]`; restore
the ordinary reducibility so that concrete scenario states evaluate inside
`decide`.  (The kernel ignores reducibility attributes, so this changes
nothing about what is provable.) -/
set_option allowUnsafeReducibility true
attribute [semireducible] Rat.add Rat.mul Rat.sub Rat.inv
end

deriving instance DecidableEq for Except

set_option maxRecDepth 10000

namespace RhPos

/-- Product row (`internal/domain/entities`, `products` table). -/
structure Product where
  id : Nat
  image : String
  name : String
  sku : String
  hargaModal : Rat
  hargaJual : Rat
  stock : Int
  tenantID : Option Nat
deriving Repr, DecidableEq

/-- Transaction line item (`transaction_items` table).  The surrogate row id
and timestamps are omitted (no claim mentions them). -/
structure TransactionItem where
  productID : Nat
  quantity : Int
  price : Rat
deriving Repr, DecidableEq

/-- Transaction header (`transactions` table).  `createdAt` is an abstract
instant (`Nat`).  The entity in the source carries no tenant field, so an
insert leaves the `tenant_id` column NULL (`none` here); the repository still
filters on that column. -/
structure Transaction where
  id : Nat
  user : String
  paymentMethod : String
  discount : Rat
  totalPrice : Rat
  notes : String
  tenantID : Option Nat
  items : List TransactionItem
  createdAt : Nat
deriving Repr, DecidableEq

/-- The persistent store: the two tables the core touches plus their
auto-increment counters. -/
structure DB where
  products : List Product
  transactions : List Transaction
  nextProductID : Nat
  nextTransactionID : Nat
deriving Repr, DecidableEq

/-- `WHERE tenant_id = ?` semantics: SQL NULL on either side never matches. -/
def tenantEq (rowTenant ctxTenant : Option Nat) : Bool :=
  match rowTenant, ctxTenant with
  | some r, some t => r == t
  | _, _ => false

/-- Errors raised by the services; each constructor corresponds to one
`fmt.Errorf` format string of the source. -/
inductive SvcError where
  /-- "transaction must have at least one item" -/
  | emptyTransaction
  /-- "product not found" (wrapping the repository's not-found error) -/
  | productNotFound (id : Nat)
  /-- "insufficient stock for product %s: requested %d, available %d" -/
  | insufficientStock (name : String) (requested available : Int)
  /-- "total price mismatch: provided %.2f, calculated %.2f" -/
  | totalMismatch (provided calculated : Rat)
  /-- "tenant_id not found in context" -/
  | tenantMissing
  /-- "product with SKU %s already exists" -/
  | duplicateSKU (sku : String)
  /-- "transaction not found" -/
  | transactionNotFound (id : Nat)
deriving Repr, DecidableEq

/-! ## Repository layer -/

/-- `productRepository.GetByID`: `WHERE id = ?` — no tenant filter. -/
def productGetByID (products : List Product) (id : Nat) : Option Product :=
  products.find? (fun p => p.id == id)

/-- `productRepository.GetBySKU`: `WHERE sku = ?` — no tenant filter. -/
def productGetBySKU (products : List Product) (sku : String) : Option Product :=
  products.find? (fun p => p.sku == sku)

/-- `productRepository.Update` (GORM `Save`): replaces the row with the same
primary key, or inserts it when absent. -/
def productSave (products : List Product) (p : Product) : List Product :=
  if products.any (fun q => q.id == p.id) then
    products.map (fun q => if q.id == p.id then p else q)
  else
    products ++ [p]

/-- The `tx.Model(&Product{}).Where("id = ?", id).Update("stock", s)` write
issued inside the sale closure: sets only the stock column. -/
def writeStock (products : List Product) (id : Nat) (s : Int) : List Product :=
  products.map (fun q => if q.id == id then { q with stock := s } else q)

/-- `productRepository.List` (src/unnamed/part_013): count and one page of
the whole table — no tenant filter (the context is ignored).  `Offset` is
`(page-1)*limit`; GORM treats a negative offset as zero, as does the `Nat`
subtraction. -/
def productList (products : List Product) (_ctxTenant : Option Nat)
    (page limit : Nat) : List Product × Nat :=
  ((products.drop ((page - 1) * limit)).take limit, products.length)

/-- `productRepository.Update` (src/unnamed/part_013): an unscoped GORM
`Save` of all fields by primary key — the context's tenant is ignored. -/
def productUpdate (products : List Product) (_ctxTenant : Option Nat)
    (p : Product) : List Product :=
  productSave products p

/-- `productRepository.Delete` (src/unnamed/part_013):
`Delete(&Product{}, id)` — deletes by id only, no tenant filter; no error is
reported whether or not a row matched. -/
def productDelete (products : List Product) (_ctxTenant : Option Nat)
    (id : Nat) : List Product :=
  products.filter (fun p => !(p.id == id))

/-- `transactionRepository.GetByID`:
`WHERE id = ? AND tenant_id = ?` with the context's tenant value. -/
def transactionGetByID (transactions : List Transaction) (ctxTenant : Option Nat)
    (id : Nat) : Option Transaction :=
  transactions.find? (fun t => t.id == id && tenantEq t.tenantID ctxTenant)

/-- `transactionRepository.List`: the count and one page of the rows matching
`WHERE tenant_id = ?`.  `Offset` is `(page-1)*limit`; GORM treats a negative
offset as zero, as does the `Nat` subtraction. -/
def transactionList (transactions : List Transaction) (ctxTenant : Option Nat)
    (page limit : Nat) : List Transaction × Nat :=
  let matched := transactions.filter (fun t => tenantEq t.tenantID ctxTenant)
  ((matched.drop ((page - 1) * limit)).take limit, matched.length)

/-- `transactionRepository.Update`: `WHERE id = ? AND tenant_id = ?` then a
GORM `Save` of all fields.  When the scope matches no row the statement
affects zero rows and GORM reports no error — a silent no-op, never a
not-found failure. -/
def transactionUpdate (transactions : List Transaction) (ctxTenant : Option Nat)
    (t : Transaction) : List Transaction :=
  transactions.map (fun r =>
    if r.id == t.id && tenantEq r.tenantID ctxTenant then t else r)

/-- `transactionRepository.Delete`: `WHERE id = ? AND tenant_id = ?` then
delete.  When the scope matches no row the statement affects zero rows and
GORM reports no error — a silent no-op, never a not-found failure. -/
def transactionDelete (transactions : List Transaction) (ctxTenant : Option Nat)
    (id : Nat) : List Transaction :=
  transactions.filter (fun r => !(r.id == id && tenantEq r.tenantID ctxTenant))

/-! ## Sale processing (`transactionService.CreateTransaction`) -/

/-- One line of a `CreateTransactionRequest`. -/
structure ItemRequest where
  productID : Nat
  quantity : Int
deriving Repr, DecidableEq

/-- `interfaces.CreateTransactionRequest`. -/
structure CreateTransactionRequest where
  items : List ItemRequest
  user : String
  paymentMethod : String
  discount : Rat
  totalPrice : Rat
  notes : String
deriving Repr, DecidableEq

/-- The per-item loop of `CreateTransaction`.  Reads (`productRepo.GetByID`)
observe `entry`, the state committed before the atomic unit opened; the
pending `tx` stock writes accumulate in `txProducts`; line items and the
running total accumulate as in the source. -/
def processItems (entry : List Product) :
    List ItemRequest → List Product → List TransactionItem → Rat →
    Except SvcError (List Product × List TransactionItem × Rat)
  | [], txProducts, items, total => .ok (txProducts, items, total)
  | item :: rest, txProducts, items, total =>
    match productGetByID entry item.productID with
    | none => .error (.productNotFound item.productID)
    | some product =>
      if product.stock < item.quantity then
        .error (.insufficientStock product.name item.quantity product.stock)
      else
        let itemTotal := product.hargaJual * (item.quantity : Rat)
        let txItem : TransactionItem :=
          { productID := item.productID, quantity := item.quantity,
            price := product.hargaJual }
        let newStock := product.stock - item.quantity
        processItems entry rest (writeStock txProducts item.productID newStock)
          (items ++ [txItem]) (total + itemTotal)

/-- The discount step of the source: the factor is applied only when
`Discount > 0`. -/
def applyDiscount (discount total : Rat) : Rat :=
  if 0 < discount then total * (1 - discount / 100) else total

/-- `transactionService.CreateTransaction`.  Mirrors the source: empty-cart
check before the atomic unit; per-item loop; discount; tolerance-free
comparison of the claimed total against the computed total; commit of the
header, the lines and the stock writes as one unit (an error anywhere inside
the closure rolls everything back); finally the tenant-scoped re-read of the
created row. -/
def createTransaction (db : DB) (ctxTenant : Option Nat) (now : Nat)
    (req : CreateTransactionRequest) : DB × Except SvcError Transaction :=
  if req.items.isEmpty then (db, .error .emptyTransaction)
  else
    match processItems db.products req.items db.products [] 0 with
    | .error e => (db, .error e)
    | .ok (txProducts, items, runningTotal) =>
      let calculatedTotal := applyDiscount req.discount runningTotal
      if req.totalPrice ≠ calculatedTotal then
        (db, .error (.totalMismatch req.totalPrice calculatedTotal))
      else
        let t : Transaction :=
          { id := db.nextTransactionID, user := req.user,
            paymentMethod := req.paymentMethod, discount := req.discount,
            totalPrice := calculatedTotal, notes := req.notes,
            tenantID := none, items := items, createdAt := now }
        let db' : DB :=
          { db with products := txProducts,
                    transactions := db.transactions ++ [t],
                    nextTransactionID := db.nextTransactionID + 1 }
        match transactionGetByID db'.transactions ctxTenant t.id with
        | some t' => (db', .ok t')
        | none => (db', .error (.transactionNotFound t.id))

/-- `transactionService.GetTransaction` (tenant-scoped read). -/
def getTransaction (db : DB) (ctxTenant : Option Nat) (id : Nat) :
    Except SvcError Transaction :=
  match transactionGetByID db.transactions ctxTenant id with
  | some t => .ok t
  | none => .error (.transactionNotFound id)

/-! ## Product service (`productService`) -/

/-- The dynamic `updates` map of `UpdateProduct`, as a typed patch: the six
recognised keys, each optionally present. -/
structure ProductUpdates where
  image : Option String
  name : Option String
  sku : Option String
  hargaModal : Option Rat
  hargaJual : Option Rat
  stock : Option Int
deriving Repr, DecidableEq

/-- The field-update switch of `UpdateProduct` (keys are distinct, so map
iteration order is immaterial). -/
def applyUpdates (p : Product) (u : ProductUpdates) : Product :=
  { p with
    image := u.image.getD p.image,
    name := u.name.getD p.name,
    sku := u.sku.getD p.sku,
    hargaModal := u.hargaModal.getD p.hargaModal,
    hargaJual := u.hargaJual.getD p.hargaJual,
    stock := u.stock.getD p.stock }

/-- `productService.GetProduct`: delegates to the unscoped repository read
(the context's tenant is not consulted). -/
def getProduct (db : DB) (_ctxTenant : Option Nat) (id : Nat) :
    Except SvcError Product :=
  match productGetByID db.products id with
  | some p => .ok p
  | none => .error (.productNotFound id)

/-- `productService.UpdateProduct`: requires a tenant in the context, reads
the row unscoped, applies the patch, then overwrites the row's tenant
reference with the caller's tenant and saves. -/
def updateProduct (db : DB) (ctxTenant : Option Nat) (id : Nat)
    (u : ProductUpdates) : DB × Except SvcError Product :=
  match ctxTenant with
  | none => (db, .error .tenantMissing)
  | some tenantID =>
    match productGetByID db.products id with
    | none => (db, .error (.productNotFound id))
    | some product =>
      let product' := { applyUpdates product u with tenantID := some tenantID }
      ({ db with products := productSave db.products product' }, .ok product')

/-- `productService.UpdateStock`: same shape as `UpdateProduct` with a single
stock field. -/
def updateStock (db : DB) (ctxTenant : Option Nat) (id : Nat) (stock : Int) :
    DB × Except SvcError Product :=
  match ctxTenant with
  | none => (db, .error .tenantMissing)
  | some tenantID =>
    match productGetByID db.products id with
    | none => (db, .error (.productNotFound id))
    | some product =>
      let product' := { product with stock := stock, tenantID := some tenantID }
      ({ db with products := productSave db.products product' }, .ok product')

/-- `productService.CreateProduct`: requires a tenant, stamps it on the new
row, rejects when the *unscoped* `GetBySKU` finds any row with the same SKU,
then inserts. -/
def createProduct (db : DB) (ctxTenant : Option Nat) (p : Product) :
    DB × Except SvcError Product :=
  match ctxTenant with
  | none => (db, .error .tenantMissing)
  | some tenantID =>
    let p' := { p with tenantID := some tenantID }
    match productGetBySKU db.products p.sku with
    | some _ => (db, .error (.duplicateSKU p.sku))
    | none =>
      let created := { p' with id := db.nextProductID }
      ({ db with products := db.products ++ [created],
                 nextProductID := db.nextProductID + 1 }, .ok created)

/-! ## Report service (`reportService.GetSalesReport`, `GetReportData`) -/

/-- One row of the aggregation query's result set (`interfaces.ReportDetail`).
The stray `ti.id` column the query selects is not modelled: under
`GROUP BY ti.product_id, p.name` its value is an arbitrary member of the
group and no claim mentions it. -/
structure ReportDetail where
  productID : Nat
  productName : String
  total : Int
  totalPrice : Rat
deriving Repr, DecidableEq

/-- Insert into a list sorted by `le`. -/
def insertBy (le : ReportDetail → ReportDetail → Bool) (x : ReportDetail) :
    List ReportDetail → List ReportDetail
  | [] => [x]
  | y :: ys => if le x y then x :: y :: ys else y :: insertBy le x ys

/-- Sort by `le` (insertion sort).  `ORDER BY total_price DESC` leaves the
order of revenue ties unspecified; any deterministic order realises it. -/
def sortBy (le : ReportDetail → ReportDetail → Bool) (l : List ReportDetail) :
    List ReportDetail :=
  l.foldr (insertBy le) []

/-- The rows the report query ranges over: items of transactions whose
`created_at` lies in `[startDate, endDate]` and whose tenant matches the
scope, inner-joined with the products table for the name. -/
def reportRows (db : DB) (ctxTenant : Option Nat) (startDate endDate : Nat) :
    List (TransactionItem × String) :=
  (db.transactions.filter (fun t =>
      decide (startDate ≤ t.createdAt) && decide (t.createdAt ≤ endDate) &&
      tenantEq t.tenantID ctxTenant)).flatMap
    (fun t => t.items.filterMap (fun it =>
      (productGetByID db.products it.productID).map (fun p => (it, p.name))))

/-- One product's group row of the aggregation: summed quantity and summed
`price * quantity` over the rows carrying that product id. -/
def reportGroup (rows : List (TransactionItem × String)) (pid : Nat) :
    ReportDetail :=
  let grp := rows.filter (fun r => r.1.productID == pid)
  { productID := pid,
    productName := ((grp.head?).map (fun r => r.2)).getD "",
    total := (grp.map (fun r => r.1.quantity)).sum,
    totalPrice := (grp.map (fun r => r.1.price * (r.1.quantity : Rat))).sum }

/-- `transactionRepository.GetReportData`: group the rows by product, summing
quantity and `price * quantity`, ordered by summed revenue descending. -/
def getReportData (db : DB) (ctxTenant : Option Nat) (startDate endDate : Nat) :
    List ReportDetail :=
  let rows := reportRows db ctxTenant startDate endDate
  sortBy (fun a b => decide (b.totalPrice ≤ a.totalPrice))
    (((rows.map (fun r => r.1.productID)).dedup).map (reportGroup rows))

/-- `interfaces.ReportResponse`. -/
structure ReportResponse where
  totalRevenue : Rat
  itemsSold : Int
  averageTransaction : Rat
  details : List ReportDetail
deriving Repr, DecidableEq

/-- `reportService.GetSalesReport`: fold the details into the three metrics;
the division by the number of detail rows is guarded by a non-emptiness
check. -/
def getSalesReport (db : DB) (ctxTenant : Option Nat) (startDate endDate : Nat) :
    ReportResponse :=
  let details := getReportData db ctxTenant startDate endDate
  let totalRevenue := (details.map (fun d => d.totalPrice)).sum
  let itemsSold := (details.map (fun d => d.total)).sum
  let averageTransaction :=
    if 0 < details.length then totalRevenue / (details.length : Rat) else 0
  { totalRevenue := totalRevenue, itemsSold := itemsSold,
    averageTransaction := averageTransaction, details := details }

/-! ## Identifier codec (`pkg/hash`: `HashID` / `DecodeHashID`)

Modelled from the spec: the repository's `HashID`/`DecodeHashID` wrappers are
under `src/` but the go-hashids v2 library they delegate to
(`github.com/speps/go-hashids/v2`) is not vendored in the repository, so the
codec's keyed behaviour is modelled here: the hashids algorithm (consistent
shuffle keyed by the salt, lottery character, base conversion over the
shuffled alphabet, separator/guard padding to the minimum length, and the
decode-side re-encode sanity check of v2), instantiated with the repository's
constants (`alphabet`, `minLength = 7`, `salt`).  Runes are `Char`,
non-negative `int64` arithmetic is `Nat`. -/

/-- `alphabet` constant of `pkg/hash`. -/
def hashidAlphabetSource : List Char :=
  "ABCDEFGHIJKLMNOPQRSTUVWXYZ1234567890".toList

/-- `salt` constant of `pkg/hash`. -/
def hashidSaltSource : List Char := "__next_move_to_config__".toList

/-- `minLength` constant of `pkg/hash`. -/
def hashidMinLengthSource : Nat := 7

/-- Modelled from the spec: go-hashids' `sepsOriginal`. -/
def sepsOriginal : List Char := "cfhistuCFHISTU".toList

/-- The derived keying of a hashids instance: working alphabet, separators,
guards, plus the salt and minimum length it was built with. -/
structure HashKeys where
  alphabet : List Char
  seps : List Char
  guards : List Char
  salt : List Char
  minLength : Nat
deriving Repr, DecidableEq

/-- Swap the elements at positions `i` and `j` (identity when either index is
out of range; the algorithm only swaps in-range indices). -/
def listSwap (l : List Char) (i j : Nat) : List Char :=
  match l[i]?, l[j]? with
  | some a, some b => (l.set i b).set j a
  | _, _ => l

/-- Modelled from the spec: the loop of go-hashids' `consistentShuffle`,
descending over positions `i = n-1, …, 1` while cycling `v` through the salt
and accumulating `p`. -/
def consistentShuffleLoop (salt : List Char) :
    Nat → Nat → Nat → List Char → List Char
  | 0, _, _, result => result
  | i + 1, v, p, result =>
    let sv := (salt.getD v ' ').toNat
    let p' := p + sv
    let j := (sv + v + p') % (i + 1)
    consistentShuffleLoop salt i ((v + 1) % salt.length) p' (listSwap result (i + 1) j)

/-- Modelled from the spec: go-hashids' `consistentShuffle`. -/
def consistentShuffle (alphabet salt : List Char) : List Char :=
  if salt.isEmpty then alphabet
  else consistentShuffleLoop salt (alphabet.length - 1) 0 0 alphabet

/-! ## Scenario constants and single-number encoding pieces -/

/-- Modelled from the spec: the hashids initialisation (`NewWithData`) —
separator extraction, the `sepDiv = 3.5` ratio adjustment, the salt-keyed
shuffles and the `guardDiv = 12` guard extraction — producing the working
alphabet, the separators and the guards.  `⌈a / 3.5⌉ = ⌈2a / 7⌉` and
`⌈a / 12⌉` are computed in exact integer arithmetic. -/
def hashidSetup (alphabetSource salt : List Char) (minLength : Nat) : HashKeys :=
  let seps0 := sepsOriginal.filter (fun c => alphabetSource.contains c)
  let alphabet1 := alphabetSource.filter (fun c => !seps0.contains c)
  let seps1 := consistentShuffle seps0 salt
  let adjusted :=
    if seps1.length = 0 ∨ 2 * alphabet1.length > 7 * seps1.length then
      let sepsLength0 := (2 * alphabet1.length + 6) / 7
      let sepsLength := if sepsLength0 = 1 then 2 else sepsLength0
      if sepsLength > seps1.length then
        let diff := sepsLength - seps1.length
        (alphabet1.drop diff, seps1 ++ alphabet1.take diff)
      else
        (alphabet1, seps1.take sepsLength)
    else (alphabet1, seps1)
  let alphabet2 := consistentShuffle adjusted.1 salt
  let guardCount := (alphabet2.length + 11) / 12
  if alphabet2.length < 3 then
    { alphabet := alphabet2, seps := adjusted.2.drop guardCount,
      guards := adjusted.2.take guardCount, salt := salt, minLength := minLength }
  else
    { alphabet := alphabet2.drop guardCount, seps := adjusted.2,
      guards := alphabet2.take guardCount, salt := salt, minLength := minLength }

/-- The keying of the repository's codec instance. -/
def rhKeys : HashKeys :=
  hashidSetup hashidAlphabetSource hashidSaltSource hashidMinLengthSource

/-- Modelled from the spec: go-hashids' `hash` — the base-`|alphabet|` digit
string of `n`, most significant digit first, at least one digit; written with
a fuel argument (any fuel above `n` computes the full digit string, since the
quotient strictly decreases for an alphabet of length ≥ 2).  (For an alphabet
shorter than 2 the Go loop would not terminate / panic; unreachable here.) -/
def hashNumF (alphabet : List Char) : Nat → Nat → List Char
  | 0, _ => []
  | fuel + 1, n =>
    if alphabet.length < 2 then []
    else if n < alphabet.length then [alphabet.getD (n % alphabet.length) ' ']
    else hashNumF alphabet fuel (n / alphabet.length) ++
      [alphabet.getD (n % alphabet.length) ' ']

/-- go-hashids' `hash` at sufficient fuel. -/
def hashNum (alphabet : List Char) (n : Nat) : List Char :=
  hashNumF alphabet (n + 1) n

/-- Index of the first occurrence of `c`, as in go-hashids' linear scan. -/
def charIdx : List Char → Char → Option Nat
  | [], _ => none
  | a :: rest, c => if a = c then some 0 else (charIdx rest c).map (· + 1)

/-- The left-to-right accumulation of go-hashids' `unhash`. -/
def unhashCore (alphabet : List Char) : List Char → Nat → Option Nat
  | [], acc => some acc
  | c :: rest, acc =>
    match charIdx alphabet c with
    | none => none
    | some pos => unhashCore alphabet rest (acc * alphabet.length + pos)

/-- Modelled from the spec: go-hashids' `unhash` — base-`|alphabet|` value of
a digit string; fails when a character is not in the alphabet. -/
def unhashNum (alphabet : List Char) (s : List Char) : Option Nat :=
  unhashCore alphabet s 0

/-- Modelled from the spec: the per-number loop of go-hashids'
`EncodeInt64`: re-shuffle the alphabet keyed by `lottery ++ salt ++ alphabet`
(truncated to the alphabet's length), emit the number's digits, and between
numbers emit a separator chosen from the number, the first digit and the
index.  Returns the accumulated characters and the final alphabet. -/
def encodeStep (k : HashKeys) (lottery : Char) :
    List Nat → Nat → List Char → List Char → List Char × List Char
  | [], _, alphabet, acc => (acc, alphabet)
  | n :: rest, i, alphabet, acc =>
    let buf := (lottery :: (k.salt ++ alphabet)).take alphabet.length
    let alphabet' := consistentShuffle alphabet buf
    let digits := hashNum alphabet' n
    let acc' := acc ++ digits
    if rest.isEmpty then (acc', alphabet')
    else
      let n' := n % ((digits.headD ' ').toNat + i)
      encodeStep k lottery rest (i + 1) alphabet'
        (acc' ++ [k.seps.getD (n' % k.seps.length) ' '])

/-- Modelled from the spec: the guard-padding step of `EncodeInt64` — when the
result is shorter than `minLength`, prepend a guard chosen from the numbers
hash and the first character, and if still short append a guard chosen from
the numbers hash and the third character. -/
def padGuards (k : HashKeys) (numbersHash : Nat) (result : List Char) : List Char :=
  if k.minLength ≤ result.length then result
  else
    let gi := (numbersHash + (result.headD ' ').toNat) % k.guards.length
    let result1 := k.guards.getD gi ' ' :: result
    if k.minLength ≤ result1.length then result1
    else
      let gi2 := (numbersHash + (result1.getD 2 ' ').toNat) % k.guards.length
      result1 ++ [k.guards.getD gi2 ' ']

/-- Modelled from the spec: the final while-loop of `EncodeInt64` — while the
result is shorter than `minLength`, shuffle the alphabet by itself, wrap the
result in the alphabet's two halves, and trim the centred window of length
`minLength` when the result overshoots.  (With an empty alphabet the Go loop
would not terminate; that unreachable case returns the result as is.) -/
def padLoopF (minLength : Nat) : Nat → List Char → List Char → List Char
  | 0, _, result => result
  | fuel + 1, alphabet, result =>
    if minLength ≤ result.length then result
    else if alphabet.isEmpty then result
    else
      let alphabet' := consistentShuffle alphabet alphabet
      let half := alphabet.length / 2
      let result' := alphabet'.drop half ++ result ++ alphabet'.take half
      let excess := result'.length - minLength
      let result'' :=
        if 0 < excess then (result'.drop (excess / 2)).take minLength
        else result'
      padLoopF minLength fuel alphabet' result''

/-- The while-loop with enough fuel: each iteration either reaches the target
length outright (the trim) or grows the result by the alphabet's length ≥ 1,
so `minLength + 1` iterations always suffice. -/
def padLoop (minLength : Nat) (alphabet result : List Char) : List Char :=
  padLoopF minLength (minLength + 1) alphabet result

/-- Modelled from the spec: go-hashids' `EncodeInt64` for the repository's
codec instance: fails (`none`) on an empty list of numbers; otherwise the
numbers hash, the lottery character, the per-number digit/separator loop and
the two padding stages.  Negative inputs cannot arise (`Nat`). -/
def encodeList (k : HashKeys) (numbers : List Nat) : Option (List Char) :=
  if numbers.isEmpty then none
  else
    let numbersHash := (numbers.enum.map (fun p => p.2 % (p.1 + 100))).sum
    let lottery := k.alphabet.getD (numbersHash % k.alphabet.length) ' '
    let step := encodeStep k lottery numbers 0 k.alphabet [lottery]
    some (padLoop k.minLength step.2 (padGuards k numbersHash step.1))

/-- Modelled from the spec: go-hashids' `splitRunes` — split at every
occurrence of a separator character, keeping empty segments (the result is
always non-empty). -/
def splitOnChars (seps : List Char) : List Char → List (List Char)
  | [] => [[]]
  | c :: rest =>
    match splitOnChars seps rest with
    | [] => [[]]
    | s :: ss => if seps.contains c then [] :: s :: ss else (c :: s) :: ss

/-- Modelled from the spec: the per-segment loop of go-hashids'
`DecodeInt64WithError`: the same keyed re-shuffle as encoding, then `unhash`
of each segment. -/
def decodeLoop (k : HashKeys) (lottery : Char) :
    List (List Char) → List Char → List Nat → Option (List Nat)
  | [], _, acc => some acc
  | sub :: rest, alphabet, acc =>
    let buf := (lottery :: (k.salt ++ alphabet)).take alphabet.length
    let alphabet' := consistentShuffle alphabet buf
    match unhashNum alphabet' sub with
    | none => none
    | some n => decodeLoop k lottery rest alphabet' (acc ++ [n])

/-- Modelled from the spec: the parsing part of `DecodeInt64WithError` —
split on guards, pick the middle part when the guards produced 2 or 3
segments, read the lottery character, split the remainder on separators and
`unhash` each segment. -/
def rawDecode (k : HashKeys) (s : List Char) : Option (List Nat) :=
  let hashes := splitOnChars k.guards s
  let idx := if hashes.length = 2 ∨ hashes.length = 3 then 1 else 0
  match hashes.getD idx [] with
  | [] => some []
  | lottery :: breakdown =>
    decodeLoop k lottery (splitOnChars k.seps breakdown) k.alphabet []

/-- `hash.DecodeHashID` composed with go-hashids v2's
`DecodeWithError`: parse, then the v2 re-encode sanity check (on an encode
error the empty string is compared), then the wrapper's requirement of
exactly one decoded value. -/
def decodeHashIDWith (k : HashKeys) (s : String) : Except String Nat :=
  match rawDecode k s.toList with
  | none => .error "invalid hash format"
  | some ids =>
    let sanity := ((encodeList k ids).getD [])
    if String.mk sanity ≠ s then .error "mismatch between encode and decode"
    else if ids.length ≠ 1 then .error "invalid hash: expected exactly 1 id"
    else .ok (ids.headD 0)

/-- `hash.DecodeHashID` at the repository's keying. -/
def decodeHashID (s : String) : Except String Nat :=
  decodeHashIDWith rhKeys s

/-- `hash.HashID`: encode a single id; ids at or above `2^63` overflow Go's
`int` and make the library refuse (the wrapper then returns `""`). -/
def rhHashID (id : Nat) : String :=
  if id < 2 ^ 63 then String.mk ((encodeList rhKeys [id]).getD []) else ""

/-- A concrete product for the scenario states: stock 10, sale price 5,
owned by tenant 1. -/
def sampleProduct : Product :=
  { id := 1, image := "", name := "Widget", sku := "SKU1",
    hargaModal := 3, hargaJual := 5, stock := 10, tenantID := some 1 }

/-- The entry state for the concrete scenarios. -/
def sampleDB : DB :=
  { products := [sampleProduct], transactions := [],
    nextProductID := 2, nextTransactionID := 1 }

/-- A request for two units of the sample product with an off-by-one claimed
total. -/
def mismatchReq : CreateTransactionRequest :=
  { items := [{ productID := 1, quantity := 2 }], user := "u",
    paymentMethod := "cash", discount := 0, totalPrice := 11, notes := "" }

/-- A 99-unit line against the sample product's stock of 10. -/
def overstockItem : ItemRequest := { productID := 1, quantity := 99 }

/-- A request whose single line exceeds the sample product's stock. -/
def overstockReq : CreateTransactionRequest :=
  { items := [overstockItem], user := "u",
    paymentMethod := "cash", discount := 0, totalPrice := 495, notes := "" }

/-- A sale request with a *negative* discount (nothing validates the range)
and the claimed total matching the code's undiscounted computation. -/
def negDiscountReq : CreateTransactionRequest :=
  { items := [{ productID := 1, quantity := 2 }], user := "u",
    paymentMethod := "cash", discount := -100, totalPrice := 10, notes := "" }

/-- The transaction the code commits for `negDiscountReq`. -/
def negDiscountTxn : Transaction :=
  { id := 1, user := "u", paymentMethod := "cash", discount := -100,
    totalPrice := 10, notes := "", tenantID := none,
    items := [{ productID := 1, quantity := 2, price := 5 }], createdAt := 5 }

/-- A correctly-discounted request: two units at price 5, 50% discount,
claimed total 5. -/
def discountReq : CreateTransactionRequest :=
  { items := [{ productID := 1, quantity := 2 }], user := "u",
    paymentMethod := "cash", discount := 50, totalPrice := 5, notes := "" }

/-- The transaction the code commits for `discountReq`. -/
def discountTxn : Transaction :=
  { id := 1, user := "u", paymentMethod := "cash", discount := 50,
    totalPrice := 5, notes := "", tenantID := none,
    items := [{ productID := 1, quantity := 2, price := 5 }], createdAt := 5 }

/-- A request naming the same product on two lines, 3 units each, claimed
total matching the code's computation. -/
def dupLineReq : CreateTransactionRequest :=
  { items := [{ productID := 1, quantity := 3 }, { productID := 1, quantity := 3 }],
    user := "u", paymentMethod := "cash", discount := 0, totalPrice := 30,
    notes := "" }

/-- A committed sale row owned by tenant 1. -/
def sampleTxn : Transaction :=
  { id := 1, user := "u", paymentMethod := "cash", discount := 0,
    totalPrice := 10, notes := "", tenantID := some 1, items := [],
    createdAt := 0 }

/-- A state with one tenant-1 sale row. -/
def dbWithTxn : DB :=
  { products := [], transactions := [sampleTxn], nextProductID := 1,
    nextTransactionID := 2 }

/-- A fresh product carrying the sample product's SKU, to be created by a
different tenant. -/
def newSKUProduct : Product :=
  { id := 0, image := "", name := "New", sku := "SKU1", hargaModal := 1,
    hargaJual := 2, stock := 0, tenantID := none }

/-- A committed tenant-1 sale inside the report window. -/
def reportTxn : Transaction :=
  { id := 1, user := "u", paymentMethod := "cash", discount := 0,
    totalPrice := 10, notes := "", tenantID := some 1,
    items := [{ productID := 1, quantity := 2, price := 5 }], createdAt := 10 }

/-- A state with one committed sale for the report scenarios. -/
def reportDB : DB :=
  { products := [sampleProduct], transactions := [reportTxn],
    nextProductID := 2, nextTransactionID := 2 }

/-- A state with no sales at all. -/
def emptyDB : DB :=
  { products := [], transactions := [], nextProductID := 1,
    nextTransactionID := 1 }

/-- The lottery character chosen for a single number. -/
def rhLottery (id : Nat) : Char :=
  rhKeys.alphabet.getD ((id % 100) % rhKeys.alphabet.length) ' '

/-- The per-number shuffled alphabet for a single number. -/
def rhAlpha (id : Nat) : List Char :=
  consistentShuffle rhKeys.alphabet
    ((rhLottery id :: (rhKeys.salt ++ rhKeys.alphabet)).take rhKeys.alphabet.length)

/-- The digit string of a single number over its shuffled alphabet. -/
def rhDigits (id : Nat) : List Char := hashNum (rhAlpha id) id


theorem listSwap_length (l : List Char) (i j : Nat) :
    (listSwap l i j).length = l.length := by
  unfold listSwap
  rcases h1 : l[i]? with _ | a <;> rcases h2 : l[j]? with _ | b <;> simp

theorem consistentShuffleLoop_length (salt : List Char) :
    ∀ (i v p : Nat) (r : List Char),
      (consistentShuffleLoop salt i v p r).length = r.length := by
  intro i
  induction i with
  | zero => intro v p r; rfl
  | succ i ih =>
    intro v p r
    rw [consistentShuffleLoop, ih, listSwap_length]

theorem consistentShuffle_length (alphabet salt : List Char) :
    (consistentShuffle alphabet salt).length = alphabet.length := by
  unfold consistentShuffle
  split
  · rfl
  · rw [consistentShuffleLoop_length]

/-! ## Helper lemmas: sale processing -/

/-- Every product in the tables after a `tx` stock write is either an
untouched row or a row whose stock was set to the written value. -/
theorem writeStock_nonneg {l : List Product} {id : Nat} {s : Int}
    (hl : ∀ p ∈ l, 0 ≤ p.stock) (hs : 0 ≤ s) :
    ∀ p ∈ writeStock l id s, 0 ≤ p.stock := by
  intro p hp
  rcases List.mem_map.mp hp with ⟨q, hq, rfl⟩
  by_cases h : q.id == id <;> simp [h] <;> [exact hs; exact hl q hq]

/-- The pending writes of the per-item loop only carry non-negative stock
values: each line's written value is `stock − quantity` with the line's
quantity bounded by the stock the check observed. -/
theorem processItems_nonneg {entry : List Product} :
    ∀ {items : List ItemRequest} {acc : List Product} {its : List TransactionItem}
      {tot : Rat} {txP : List Product} {its' : List TransactionItem} {tot' : Rat},
      (∀ p ∈ acc, 0 ≤ p.stock) →
      processItems entry items acc its tot = .ok (txP, its', tot') →
      ∀ p ∈ txP, 0 ≤ p.stock := by
  intro items
  induction items with
  | nil =>
    intro acc its tot txP its' tot' hacc h
    simp only [processItems, Except.ok.injEq] at h
    obtain ⟨rfl, -, -⟩ := h
    exact hacc
  | cons item rest ih =>
    intro acc its tot txP its' tot' hacc h
    rw [processItems] at h
    split at h
    · simp at h
    · split at h
      · simp at h
      · rename_i hstock
        exact ih (writeStock_nonneg hacc (by omega)) h

/-- `createTransaction` never leaves a negative stock: failures roll back and
a commit installs only checked decrements. -/
theorem createTransaction_stocksNonneg {db : DB} {ctxTenant : Option Nat}
    {now : Nat} {req : CreateTransactionRequest}
    (hdb : ∀ p ∈ db.products, 0 ≤ p.stock) :
    ∀ p ∈ (createTransaction db ctxTenant now req).1.products, 0 ≤ p.stock := by
  unfold createTransaction
  by_cases hempty : req.items.isEmpty
  · simpa [hempty] using hdb
  · simp only [hempty, Bool.false_eq_true, if_false]
    rcases hproc : processItems db.products req.items db.products [] 0
      with e | ⟨txP, its, T⟩
    · simpa using hdb
    · simp only []
      by_cases hmis : req.totalPrice ≠ applyDiscount req.discount T
      · simpa [hmis] using hdb
      · have htx : ∀ p ∈ txP, 0 ≤ p.stock := processItems_nonneg hdb hproc
        simp only [hmis, if_false]
        split <;> simpa using htx

/-- When every requested product exists, an over-stock line makes the loop
fail with the insufficient-stock error. -/
theorem processItems_insufficient {entry : List Product} :
    ∀ {items : List ItemRequest} {acc : List Product} {its : List TransactionItem}
      {tot : Rat},
      (∀ it ∈ items, ∃ p, productGetByID entry it.productID = some p) →
      (∃ it ∈ items, ∃ p, productGetByID entry it.productID = some p ∧
        p.stock < it.quantity) →
      ∃ n q a, processItems entry items acc its tot =
        .error (.insufficientStock n q a) := by
  intro items
  induction items with
  | nil => intro acc its tot _ hbad; simp at hbad
  | cons item rest ih =>
    intro acc its tot hall hbad
    obtain ⟨p₀, hp₀⟩ := hall item (by simp)
    simp only [processItems, hp₀]
    by_cases hstock : p₀.stock < item.quantity
    · exact ⟨p₀.name, item.quantity, p₀.stock, by rw [if_pos hstock]⟩
    · rw [if_neg hstock]
      apply ih
      · intro it hit; exact hall it (by simp [hit])
      · rcases hbad with ⟨it, hit, p, hp, hlt⟩
        rcases List.mem_cons.mp hit with rfl | hit'
        · rw [hp₀] at hp; cases hp; exact absurd hlt hstock
        · exact ⟨it, hit', p, hp, hlt⟩

/-! ## C1 -/

/-- C1: a `createSale` whose caller-supplied claimed total differs from the
server-computed final total (the running total of snapshotted unit price
times quantity, with the discount applied) fails with the total-mismatch
error and returns the entry state unchanged: no stock decrement, transaction
header or sale line persists. -/
theorem C1_total_mismatch_fails_closed (db : DB) (ctxTenant : Option Nat)
    (now : Nat) (req : CreateTransactionRequest) (txP : List Product)
    (its : List TransactionItem) (T : Rat)
    (hne : req.items ≠ [])
    (hproc : processItems db.products req.items db.products [] 0 = .ok (txP, its, T))
    (hmismatch : req.totalPrice ≠ applyDiscount req.discount T) :
    createTransaction db ctxTenant now req =
      (db, .error (.totalMismatch req.totalPrice (applyDiscount req.discount T))) := by
  unfold createTransaction
  rw [if_neg (by simpa [List.isEmpty_iff] using hne), hproc]
  simp [hmismatch]

/-- Witness for C1: claimed total 11 against computed total 10 fails with the
mismatch error and leaves the state unchanged. -/
theorem C1_witness :
    createTransaction sampleDB (some 1) 0 mismatchReq =
      (sampleDB, .error (.totalMismatch 11 10)) :=
  C1_total_mismatch_fails_closed sampleDB (some 1) 0 mismatchReq
    [{ sampleProduct with stock := 8 }]
    [{ productID := 1, quantity := 2, price := 5 }] 10
    (by decide) (by decide) (by decide)

/-! ## C3 -/

/-- C3: starting from non-negative stocks, any sequence of `createSale` calls
leaves every product's stock non-negative (failed calls roll back; committed
calls install only checked decrements), and a line whose quantity exceeds the
observed stock is rejected with the insufficient-stock error, the state
unchanged (stated with every requested product present, so the loop reaches
the offending line's check rather than failing on a lookup). -/
theorem C3_stock_never_negative :
    (∀ (db : DB) (calls : List (Option Nat × Nat × CreateTransactionRequest)),
      (∀ p ∈ db.products, 0 ≤ p.stock) →
      ∀ p ∈ (calls.foldl (fun s c => (createTransaction s c.1 c.2.1 c.2.2).1) db).products,
        0 ≤ p.stock) ∧
    (∀ (db : DB) (ctxTenant : Option Nat) (now : Nat) (req : CreateTransactionRequest),
      req.items ≠ [] →
      (∀ it ∈ req.items, ∃ p, productGetByID db.products it.productID = some p) →
      (∃ it ∈ req.items, ∃ p, productGetByID db.products it.productID = some p ∧
        p.stock < it.quantity) →
      ∃ n q a, createTransaction db ctxTenant now req =
        (db, .error (.insufficientStock n q a))) := by
  constructor
  · intro db calls
    induction calls generalizing db with
    | nil => intro h; simpa using h
    | cons c rest ih =>
      intro h
      exact ih _ (createTransaction_stocksNonneg h)
  · intro db ctxTenant now req hne hall hbad
    obtain ⟨n, q, a, h⟩ :=
      @processItems_insufficient db.products req.items db.products [] 0 hall hbad
    refine ⟨n, q, a, ?_⟩
    unfold createTransaction
    rw [if_neg (by simpa [List.isEmpty_iff] using hne), h]

/-- Witness for C3: one mismatching sale against `sampleDB` leaves stocks
non-negative, and a 99-unit line against stock 10 is rejected with the
insufficient-stock error. -/
theorem C3_witness :
    (∀ p ∈ (([((some 1 : Option Nat), (0 : Nat), mismatchReq)].foldl
        (fun s c => (createTransaction s c.1 c.2.1 c.2.2).1) sampleDB)).products,
      0 ≤ p.stock) ∧
    (∃ n q a, createTransaction sampleDB (some 1) 0 overstockReq =
      (sampleDB, .error (.insufficientStock n q a))) :=
  ⟨C3_stock_never_negative.1 sampleDB _ (by decide),
   C3_stock_never_negative.2 sampleDB (some 1) 0 overstockReq (by decide)
     (by
       intro it hit
       simp only [overstockReq, List.mem_singleton] at hit
       subst hit
       exact ⟨sampleProduct, by decide⟩)
     ⟨overstockItem, by decide, sampleProduct, by decide, by decide⟩⟩

/-! ## C2 -/

/-- The running total returned by the per-item loop is the sum, over the line
items it produced, of snapshotted unit price times quantity. -/
theorem processItems_total {entry : List Product} :
    ∀ {items : List ItemRequest} {acc : List Product} {its : List TransactionItem}
      {tot : Rat} {txP : List Product} {its' : List TransactionItem} {tot' : Rat},
      processItems entry items acc its tot = .ok (txP, its', tot') →
      ∃ newItems, its' = its ++ newItems ∧
        tot' = tot + (newItems.map (fun i => i.price * (i.quantity : Rat))).sum := by
  intro items
  induction items with
  | nil =>
    intro acc its tot txP its' tot' h
    simp only [processItems, Except.ok.injEq] at h
    obtain ⟨-, rfl, rfl⟩ := h
    exact ⟨[], by simp⟩
  | cons item rest ih =>
    intro acc its tot txP its' tot' h
    rw [processItems] at h
    split at h
    · simp at h
    · split at h
      · simp at h
      · rename_i product hfind hstock
        obtain ⟨newItems, hits, htot⟩ := ih h
        refine ⟨(⟨item.productID, item.quantity, product.hargaJual⟩ :
          TransactionItem) :: newItems, by simpa using hits, ?_⟩
        rw [htot]
        simp only [List.map_cons, List.sum_cons]
        ring

/-- The discount step coincides with the `(1 - d/100)` factor whenever the
discount is non-negative. -/
theorem applyDiscount_of_nonneg {d T : Rat} (hd : 0 ≤ d) :
    applyDiscount d T = T * (1 - d / 100) := by
  unfold applyDiscount
  split
  · rfl
  · rename_i h
    have : d = 0 := le_antisymm (not_lt.mp h) hd
    subst this
    simp

/-- C2 (amended): every transaction committed by `createSale` persists the
server-computed total, which equals the sum of its lines' snapshotted unit
price times quantity with the code's discount step applied; for every
non-negative discount this is exactly `sum * (1 - discount/100)`.  (A
negative discount — which nothing validates against — skips the discount
factor and persists the raw sum; see the counterexample.) -/
theorem C2_committed_total_formula (db : DB) (ctxTenant : Option Nat) (now : Nat)
    (req : CreateTransactionRequest) (db' : DB) (res : Except SvcError Transaction)
    (h : createTransaction db ctxTenant now req = (db', res)) :
    ∀ t ∈ db'.transactions, t ∉ db.transactions →
      t.totalPrice =
        applyDiscount t.discount
          ((t.items.map (fun i => i.price * (i.quantity : Rat))).sum) ∧
      (0 ≤ t.discount →
        t.totalPrice =
          ((t.items.map (fun i => i.price * (i.quantity : Rat))).sum) *
            (1 - t.discount / 100)) := by
  unfold createTransaction at h
  split at h
  · obtain ⟨rfl, -⟩ := Prod.mk.injEq .. ▸ h
    intro t ht hnt
    exact absurd ht hnt
  · split at h
    · cases h
      intro t ht hnt
      exact absurd ht hnt
    · rename_i res' txP its T hproc
      dsimp only at h
      split at h
      · cases h
        intro t ht hnt
        exact absurd ht hnt
      · obtain ⟨newItems, hits, htot⟩ := processItems_total hproc
        simp only [List.nil_append] at hits
        subst hits
        rw [zero_add] at htot
        split at h <;>
        · cases h
          intro t ht hnt
          rcases List.mem_append.mp ht with h' | h'
          · exact absurd h' hnt
          · obtain rfl := List.mem_singleton.mp h'
            subst htot
            refine ⟨rfl, fun hd => ?_⟩
            exact applyDiscount_of_nonneg hd

/-- Counterexample to C2 as stated: with discount −100 the code commits total
10 (it skips the discount factor for non-positive discounts), but
`sum * (1 - discount/100) = 20`. -/
theorem C2_counterexample :
    (createTransaction sampleDB (some 1) 5 negDiscountReq).1.transactions =
      [negDiscountTxn] ∧
    negDiscountTxn.totalPrice ≠
      ((negDiscountTxn.items.map (fun i => i.price * (i.quantity : Rat))).sum) *
        (1 - negDiscountTxn.discount / 100) := by
  constructor
  · decide
  · decide

/-- Witness for C2 (amended): the committed transaction for `discountReq` is
new, and satisfies the total formula: 10 · (1 − 50/100) = 5. -/
theorem C2_witness :
    discountTxn ∈ (createTransaction sampleDB (some 1) 5 discountReq).1.transactions ∧
    discountTxn ∉ sampleDB.transactions ∧
    discountTxn.totalPrice =
      applyDiscount discountTxn.discount
        ((discountTxn.items.map (fun i => i.price * (i.quantity : Rat))).sum) ∧
    discountTxn.totalPrice =
      ((discountTxn.items.map (fun i => i.price * (i.quantity : Rat))).sum) *
        (1 - discountTxn.discount / 100) :=
  have h := C2_committed_total_formula sampleDB (some 1) 5 discountReq _ _ rfl
    discountTxn (by decide) (by decide)
  ⟨by decide, by decide, h.1, h.2 (by decide)⟩

/-! ## C4 -/

/-- C4 failing input, evaluated: both lines of `dupLineReq` pass their checks
and the sale commits (one transaction header with both lines), but the
persisted stock is `10 − 3 = 7` — the second line's `tx` write recomputes
from the stale pre-transaction read and overwrites the first decrement —
whereas the claim requires `10 − (3+3) = 4`. -/
theorem C4_duplicate_lines_lose_decrements :
    ((createTransaction sampleDB (some 1) 0 dupLineReq).1.products.map
      Product.stock) = [7] ∧
    ((createTransaction sampleDB (some 1) 0 dupLineReq).1.transactions.map
      (fun t => t.items.length)) = [2] ∧
    sampleProduct.stock - (3 + 3) = (4 : Int) := by
  refine ⟨by decide, by decide, by decide⟩

/-! ## C5 -/

/-- C5 (amended): tenant isolation holds for the transactions table only,
and cross-tenant writes never fail as not-found.  Transactions: a get returns
a row only under its owning tenant's scope and a cross-tenant get fails as
not-found; a list never returns another tenant's row; an update or delete
whose target id is owned entirely by other tenants matches no row and leaves
the table unchanged (the repository reports no error) — a silent no-op, not a
not-found failure.  Products (the cited `src/unnamed/part_013` repository has
no tenant filter): a get returns the row whatever the scope, a full first
page of the list returns every tenant's rows, and a delete or an update
executed under any scope removes or replaces the targeted row. -/
theorem C5_tenant_isolation_by_table :
    ((∀ (db : DB) (ctxTenant : Option Nat) (id : Nat) (t : Transaction) (tA : Nat),
      getTransaction db ctxTenant id = .ok t → t.tenantID = some tA →
        ctxTenant = some tA) ∧
    (∀ (db : DB) (tA tB id : Nat), tA ≠ tB →
      (∀ t ∈ db.transactions, t.id = id → t.tenantID = some tA) →
      getTransaction db (some tB) id = .error (.transactionNotFound id)) ∧
    (∀ (txns : List Transaction) (tA tB page limit : Nat), tA ≠ tB →
      ∀ t ∈ (transactionList txns (some tB) page limit).1, t.tenantID ≠ some tA) ∧
    (∀ (txns : List Transaction) (ctxTenant : Option Nat) (tgt : Transaction),
      (∀ r ∈ txns, r.id = tgt.id → tenantEq r.tenantID ctxTenant = false) →
      transactionUpdate txns ctxTenant tgt = txns ∧
      transactionDelete txns ctxTenant tgt.id = txns)) ∧
    ((∀ (db : DB) (ctxTenant : Option Nat) (id : Nat) (p : Product),
      productGetByID db.products id = some p → getProduct db ctxTenant id = .ok p) ∧
    (∀ (products : List Product) (ctxTenant : Option Nat) (p : Product),
      p ∈ products → p ∈ (productList products ctxTenant 1 products.length).1) ∧
    (∀ (products : List Product) (ctxTenant : Option Nat) (id : Nat) (p : Product),
      p.id = id → p ∉ productDelete products ctxTenant id) ∧
    (∀ (products : List Product) (ctxTenant : Option Nat) (np : Product),
      (∃ q ∈ products, q.id = np.id) → np ∈ productUpdate products ctxTenant np)) := by
  refine ⟨⟨?_, ?_, ?_, ?_⟩, ?_, ?_, ?_, ?_⟩
  · intro db ctxTenant id t tA hget htenant
    unfold getTransaction at hget
    rcases hfind : transactionGetByID db.transactions ctxTenant id with _ | t'
    · rw [hfind] at hget; simp at hget
    · rw [hfind] at hget
      obtain rfl : t' = t := by simpa using hget
      have hpred := List.find?_some hfind
      rw [htenant] at hpred
      rcases ctxTenant with _ | u
      · simp [tenantEq] at hpred
      · obtain ⟨-, h2⟩ := Bool.and_eq_true_iff.mp hpred
        simp only [tenantEq, beq_iff_eq] at h2
        exact congrArg some h2.symm
  · intro db tA tB id hne hown
    have hnone : transactionGetByID db.transactions (some tB) id = none := by
      apply List.find?_eq_none.mpr
      intro t ht
      by_cases hid : t.id = id
      · have := hown t ht hid
        simp [hid, this, tenantEq, hne]
      · simp [hid]
    unfold getTransaction
    rw [hnone]
  · intro txns tA tB page limit hne t ht htA
    have hf : t ∈ txns.filter (fun r => tenantEq r.tenantID (some tB)) := by
      simp only [transactionList] at ht
      exact List.drop_subset _ _ (List.take_subset _ _ ht)
    have hpred := (List.mem_filter.mp hf).2
    rw [htA] at hpred
    simp only [tenantEq, beq_iff_eq] at hpred
    exact hne hpred
  · intro txns ctxTenant tgt hyp
    have hcond : ∀ r ∈ txns,
        (r.id == tgt.id && tenantEq r.tenantID ctxTenant) = false := by
      intro r hr
      by_cases hid : r.id = tgt.id
      · simp [hyp r hr hid]
      · simp [hid]
    constructor
    · unfold transactionUpdate
      have hmap : ∀ r ∈ txns,
          (if r.id == tgt.id && tenantEq r.tenantID ctxTenant then tgt else r) =
            r := by
        intro r hr
        rw [hcond r hr]
        rfl
      exact (List.map_congr_left hmap).trans (List.map_id txns)
    · unfold transactionDelete
      apply List.filter_eq_self.mpr
      intro r hr
      rw [hcond r hr]
      rfl
  · intro db ctxTenant id p hfind
    unfold getProduct
    rw [hfind]
  · intro products ctxTenant p hp
    show p ∈ (products.drop ((1 - 1) * products.length)).take products.length
    rw [show (1 - 1) * products.length = 0 from by omega, List.drop_zero,
      List.take_length]
    exact hp
  · intro products ctxTenant id p hid hmem
    have := (List.mem_filter.mp hmem).2
    simp [hid] at this
  · intro products ctxTenant np hex
    obtain ⟨q, hq, hqid⟩ := hex
    unfold productUpdate productSave
    rw [if_pos (List.any_eq_true.mpr ⟨q, hq, by simp [hqid]⟩)]
    exact List.mem_map.mpr ⟨q, hq, by simp [hqid]⟩

/-- Witness for C5 (amended), on the one-sale / one-product states: the
tenant-1 sale is visible under tenant 1's scope only, a tenant-2 get fails as
not-found, the tenant-2 list omits it, and a tenant-2 update or delete leaves
the table unchanged; the tenant-1 product is returned, listed, replaced and
deleted under tenant 2's scope. -/
theorem C5_witness :
    ((some 1 : Option Nat) = some 1) ∧
    getTransaction dbWithTxn (some 2) 1 = .error (.transactionNotFound 1) ∧
    sampleTxn.tenantID ≠ some 2 ∧
    transactionUpdate dbWithTxn.transactions (some 2) sampleTxn =
      dbWithTxn.transactions ∧
    transactionDelete dbWithTxn.transactions (some 2) sampleTxn.id =
      dbWithTxn.transactions ∧
    getProduct sampleDB (some 2) 1 = .ok sampleProduct ∧
    sampleProduct ∈
      (productList sampleDB.products (some 2) 1 sampleDB.products.length).1 ∧
    sampleProduct ∉ productDelete sampleDB.products (some 2) 1 ∧
    sampleProduct ∈ productUpdate sampleDB.products (some 2) sampleProduct :=
  have hwd := C5_tenant_isolation_by_table.1.2.2.2 dbWithTxn.transactions
    (some 2) sampleTxn (by decide)
  ⟨C5_tenant_isolation_by_table.1.1 dbWithTxn (some 1) 1 sampleTxn 1
      (by decide) (by decide),
   C5_tenant_isolation_by_table.1.2.1 dbWithTxn 1 2 1 (by decide) (by decide),
   C5_tenant_isolation_by_table.1.2.2.1 dbWithTxn.transactions 2 1 1 10
      (by decide) sampleTxn (by decide),
   hwd.1, hwd.2,
   C5_tenant_isolation_by_table.2.1 sampleDB (some 2) 1 sampleProduct (by decide),
   C5_tenant_isolation_by_table.2.2.1 sampleDB.products (some 2) sampleProduct
      (by decide),
   C5_tenant_isolation_by_table.2.2.2.1 sampleDB.products (some 2) 1
      sampleProduct (by decide),
   C5_tenant_isolation_by_table.2.2.2.2 sampleDB.products (some 2) sampleProduct
      ⟨sampleProduct, by decide, rfl⟩⟩

/-- Counterexample to C5 as stated: under tenant 2's scope, the tenant-1
product is returned by a get (`productRepository.GetByID` has no tenant
filter) instead of failing as not-found, a product delete removes the
tenant-1 row outright, and a transaction delete aimed at the tenant-1 sale is
a silent no-op — the table is returned unchanged with no error — rather than
a not-found failure. -/
theorem C5_counterexample :
    getProduct sampleDB (some 2) 1 = .ok sampleProduct ∧
    productDelete sampleDB.products (some 2) 1 = [] ∧
    transactionDelete dbWithTxn.transactions (some 2) 1 =
      dbWithTxn.transactions ∧
    sampleProduct.tenantID = some 1 ∧ sampleTxn.tenantID = some 1 ∧
    ((some 1 : Option Nat) ≠ some 2) := by
  refine ⟨by decide, by decide, by decide, by decide, by decide, by decide⟩

/-! ## C6 -/

/-- C6 (amended): under a tenant scope, product creation fails with the
duplicate-SKU error exactly when *any* existing product — of any tenant —
carries the same SKU: the uniqueness check (`GetBySKU`) is global, not
per-tenant. -/
theorem C6_duplicate_sku_is_global (db : DB) (tenantID : Nat) (p : Product) :
    (createProduct db (some tenantID) p).2 = .error (.duplicateSKU p.sku) ↔
      ∃ q ∈ db.products, q.sku = p.sku := by
  unfold createProduct
  rcases hfind : productGetBySKU db.products p.sku with _ | q <;>
    simp only [hfind]
  · constructor
    · intro h; simp at h
    · intro ⟨q, hq, hsku⟩
      have := List.find?_eq_none.mp hfind q hq
      simp [hsku] at this
  · constructor
    · intro _
      exact ⟨q, List.mem_of_find?_eq_some hfind, by simpa using List.find?_some hfind⟩
    · intro _; trivial

/-- Counterexample to C6 as stated: tenant 2 creates a product whose SKU is
held only by tenant 1's product, and the call fails with the duplicate-SKU
error although no product of tenant 2 carries that SKU. -/
theorem C6_counterexample :
    (createProduct sampleDB (some 2) newSKUProduct).2 =
      .error (.duplicateSKU "SKU1") ∧
    (∀ q ∈ sampleDB.products, ¬(q.tenantID = some 2 ∧ q.sku = "SKU1")) := by
  refine ⟨by decide, by decide⟩

/-! ## C7 -/

/-- C7 failing input, evaluated: `UpdateStock` called under tenant 2's scope
on tenant 1's product re-stamps the row's tenant reference with the caller's
tenant: the persisted row now belongs to tenant 2, so the tenant reference is
not immutable. -/
theorem C7_update_reassigns_tenant :
    sampleProduct.tenantID = some 1 ∧
    ((updateStock sampleDB (some 2) 1 5).1.products.map Product.tenantID) =
      [some 2] ∧
    (updateStock sampleDB (some 2) 1 5).2 =
      .ok { sampleProduct with stock := 5, tenantID := some 2 } := by
  refine ⟨by decide, by decide, by decide⟩

/-! ## C9 / C10: report aggregation -/

theorem insertBy_perm (le : ReportDetail → ReportDetail → Bool) (x : ReportDetail) :
    ∀ l, (insertBy le x l).Perm (x :: l) := by
  intro l
  induction l with
  | nil => exact List.Perm.refl _
  | cons y ys ih =>
    rw [insertBy]
    split
    · exact List.Perm.refl _
    · exact (ih.cons y).trans (List.Perm.swap x y ys)

theorem sortBy_perm (le : ReportDetail → ReportDetail → Bool) :
    ∀ l, (sortBy le l).Perm l := by
  intro l
  induction l with
  | nil => exact List.Perm.refl _
  | cons x xs ih =>
    exact (insertBy_perm le x (sortBy le xs)).trans (ih.cons x)

/-- Splitting a mapped sum along a Boolean predicate. -/
theorem sum_map_filter_split {α M : Type} [AddCommMonoid M]
    (p : α → Bool) (f : α → M) :
    ∀ l : List α,
      ((l.filter p).map f).sum + ((l.filter (fun a => !p a)).map f).sum =
        (l.map f).sum := by
  intro l
  induction l with
  | nil => simp
  | cons a l ih =>
    by_cases h : p a
    · simp only [List.filter_cons, h, if_true, Bool.not_true, Bool.false_eq_true,
        if_false, List.map_cons, List.sum_cons]
      rw [add_assoc, ih]
    · simp only [List.filter_cons, h, Bool.false_eq_true, if_false, Bool.not_false,
        if_true, List.map_cons, List.sum_cons]
      rw [add_left_comm, ih]

/-- Grouping preserves mapped sums: summing the per-key filtered sums over a
duplicate-free covering key list gives the total sum. -/
theorem sum_groups {α M : Type} [AddCommMonoid M] (key : α → Nat) (f : α → M) :
    ∀ (keys : List Nat) (rows : List α), keys.Nodup →
      (∀ r ∈ rows, key r ∈ keys) →
      (keys.map (fun k => ((rows.filter (fun r => key r == k)).map f).sum)).sum =
        (rows.map f).sum := by
  intro keys
  induction keys with
  | nil =>
    intro rows _ hcov
    have : rows = [] := by
      cases rows with
      | nil => rfl
      | cons r rs => exact absurd (hcov r (by simp)) (by simp)
    subst this
    simp
  | cons k ks ih =>
    intro rows hnd hcov
    have hknotin : k ∉ ks := (List.nodup_cons.mp hnd).1
    have hfilters : ∀ k' ∈ ks,
        rows.filter (fun r => key r == k') =
          (rows.filter (fun r => !(key r == k))).filter (fun r => key r == k') := by
      intro k' hk'
      rw [List.filter_filter]
      apply List.filter_congr
      intro r _
      by_cases h : key r = k'
      · have hkk : ¬ k' = k := fun e => hknotin (e ▸ hk')
        simp [h, hkk]
      · simp [h]
    have hcov' : ∀ r ∈ rows.filter (fun r => !(key r == k)), key r ∈ ks := by
      intro r hr
      obtain ⟨hrmem, hrk⟩ := List.mem_filter.mp hr
      rcases List.mem_cons.mp (hcov r hrmem) with h | h
      · simp [h] at hrk
      · exact h
    calc (((k :: ks).map
          (fun k => ((rows.filter (fun r => key r == k)).map f).sum)).sum)
        = ((rows.filter (fun r => key r == k)).map f).sum +
            (ks.map (fun k' => ((rows.filter (fun r => key r == k')).map f).sum)).sum := by
          simp
      _ = ((rows.filter (fun r => key r == k)).map f).sum +
            (ks.map (fun k' =>
              (((rows.filter (fun r => !(key r == k))).filter
                (fun r => key r == k')).map f).sum)).sum := by
          exact congrArg (HAdd.hAdd _)
            (congrArg List.sum (List.map_congr_left
              (fun k' hk' => congrArg _ (congrArg (List.map f) (hfilters k' hk')))))
      _ = ((rows.filter (fun r => key r == k)).map f).sum +
            ((rows.filter (fun r => !(key r == k))).map f).sum := by
          rw [ih _ (List.nodup_cons.mp hnd).2 hcov']
      _ = (rows.map f).sum := sum_map_filter_split _ f rows

/-- C9: over a window with at least one aggregated sale line, the report's
total revenue is the sum over all matched lines of unit price times quantity
(equivalently, the sum of the per-product group revenues), items sold is the
sum of the quantities, and the average-transaction metric divides the total
revenue by the number of distinct product groups in the breakdown — not by a
transaction count. -/
theorem C9_report_metrics (db : DB) (ctxTenant : Option Nat)
    (startDate endDate : Nat)
    (hne : reportRows db ctxTenant startDate endDate ≠ []) :
    (getSalesReport db ctxTenant startDate endDate).totalRevenue =
      ((reportRows db ctxTenant startDate endDate).map
        (fun r => r.1.price * (r.1.quantity : Rat))).sum ∧
    (getSalesReport db ctxTenant startDate endDate).itemsSold =
      ((reportRows db ctxTenant startDate endDate).map
        (fun r => r.1.quantity)).sum ∧
    (getSalesReport db ctxTenant startDate endDate).details.length =
      (((reportRows db ctxTenant startDate endDate).map
        (fun r => r.1.productID)).dedup).length ∧
    (getSalesReport db ctxTenant startDate endDate).averageTransaction =
      (getSalesReport db ctxTenant startDate endDate).totalRevenue /
        (((getSalesReport db ctxTenant startDate endDate).details.length : Nat) : Rat) := by
  have hperm := sortBy_perm (fun a b => decide (b.totalPrice ≤ a.totalPrice))
    ((((reportRows db ctxTenant startDate endDate).map
      (fun r => r.1.productID)).dedup).map
        (reportGroup (reportRows db ctxTenant startDate endDate)))
  have hnodup := List.nodup_dedup
    ((reportRows db ctxTenant startDate endDate).map (fun r => r.1.productID))
  have hcov : ∀ r ∈ reportRows db ctxTenant startDate endDate,
      r.1.productID ∈
        ((reportRows db ctxTenant startDate endDate).map
          (fun r => r.1.productID)).dedup := by
    intro r hr
    exact List.mem_dedup.mpr (List.mem_map_of_mem _ hr)
  have hlen : (getSalesReport db ctxTenant startDate endDate).details.length =
      (((reportRows db ctxTenant startDate endDate).map
        (fun r => r.1.productID)).dedup).length := by
    show (getReportData db ctxTenant startDate endDate).length = _
    simp only [getReportData]
    rw [hperm.length_eq, List.length_map]
  have hrev : (getSalesReport db ctxTenant startDate endDate).totalRevenue =
      ((reportRows db ctxTenant startDate endDate).map
        (fun r => r.1.price * (r.1.quantity : Rat))).sum := by
    show ((getReportData db ctxTenant startDate endDate).map
      (fun d => d.totalPrice)).sum = _
    simp only [getReportData]
    rw [(hperm.map (fun d => d.totalPrice)).sum_eq, List.map_map]
    exact sum_groups (fun (r : TransactionItem × String) => r.1.productID)
      (fun r => r.1.price * (r.1.quantity : Rat)) _ _ hnodup hcov
  have hsold : (getSalesReport db ctxTenant startDate endDate).itemsSold =
      ((reportRows db ctxTenant startDate endDate).map
        (fun r => r.1.quantity)).sum := by
    show ((getReportData db ctxTenant startDate endDate).map
      (fun d => d.total)).sum = _
    simp only [getReportData]
    rw [(hperm.map (fun d => d.total)).sum_eq, List.map_map]
    exact sum_groups (fun (r : TransactionItem × String) => r.1.productID)
      (fun r => r.1.quantity) _ _ hnodup hcov
  refine ⟨hrev, hsold, hlen, ?_⟩
  obtain ⟨r, hr⟩ := List.exists_mem_of_ne_nil _ hne
  have hpos : 0 < (getReportData db ctxTenant startDate endDate).length := by
    simp only [getReportData]
    rw [hperm.length_eq, List.length_map]
    exact List.length_pos.mpr (List.ne_nil_of_mem (hcov r hr))
  show (if 0 < (getReportData db ctxTenant startDate endDate).length
      then ((getReportData db ctxTenant startDate endDate).map
        (fun d => d.totalPrice)).sum /
        ((getReportData db ctxTenant startDate endDate).length : Rat)
      else 0) = _
  rw [if_pos hpos]
  rfl

/-- Witness for C9 at the one-sale state over the window `[0, 20]`. -/
theorem C9_witness :
    (getSalesReport reportDB (some 1) 0 20).totalRevenue =
      ((reportRows reportDB (some 1) 0 20).map
        (fun r => r.1.price * (r.1.quantity : Rat))).sum ∧
    (getSalesReport reportDB (some 1) 0 20).itemsSold =
      ((reportRows reportDB (some 1) 0 20).map (fun r => r.1.quantity)).sum ∧
    (getSalesReport reportDB (some 1) 0 20).details.length =
      (((reportRows reportDB (some 1) 0 20).map
        (fun r => r.1.productID)).dedup).length ∧
    (getSalesReport reportDB (some 1) 0 20).averageTransaction =
      (getSalesReport reportDB (some 1) 0 20).totalRevenue /
        (((getSalesReport reportDB (some 1) 0 20).details.length : Nat) : Rat) :=
  C9_report_metrics reportDB (some 1) 0 20 (by decide)

/-- C10: over a window with no aggregated sale lines the report does not fail
and does not divide by zero: the non-emptiness guard yields all-zero
metrics and an empty breakdown. -/
theorem C10_empty_window_report (db : DB) (ctxTenant : Option Nat)
    (startDate endDate : Nat)
    (h : reportRows db ctxTenant startDate endDate = []) :
    getSalesReport db ctxTenant startDate endDate =
      { totalRevenue := 0, itemsSold := 0, averageTransaction := 0,
        details := [] } := by
  unfold getSalesReport getReportData
  rw [h]
  rfl

/-- Witness for C10: an empty state reports all zeroes. -/
theorem C10_witness :
    getSalesReport emptyDB (some 1) 0 20 =
      { totalRevenue := 0, itemsSold := 0, averageTransaction := 0,
        details := [] } :=
  C10_empty_window_report emptyDB (some 1) 0 20 (by decide)

/-! ## C8: identifier codec — permutation infrastructure -/

theorem cons_set_perm {α : Type} :
    ∀ (tl : List α) (m : Nat) (a b : α),
      tl[m]? = some b → (b :: tl.set m a).Perm (a :: tl) := by
  intro tl
  induction tl with
  | nil => intro m a b h; simp at h
  | cons t ts ih =>
    intro m a b h
    cases m with
    | zero =>
      rw [List.getElem?_cons_zero, Option.some.injEq] at h
      subst h
      rw [List.set_cons_zero]
      exact List.Perm.swap a t ts
    | succ m =>
      rw [List.getElem?_cons_succ] at h
      rw [List.set_cons_succ]
      exact (List.Perm.swap t b _).trans
        (((ih m a b h).cons t).trans (List.Perm.swap a t ts))

theorem set_swap_perm {α : Type} :
    ∀ (l : List α) (i j : Nat) (a b : α),
      l[i]? = some a → l[j]? = some b → ((l.set i b).set j a).Perm l := by
  intro l
  induction l with
  | nil => intro i j a b h _; simp at h
  | cons x xs ih =>
    intro i j a b hi hj
    cases i with
    | zero =>
      rw [List.getElem?_cons_zero, Option.some.injEq] at hi
      subst hi
      cases j with
      | zero =>
        rw [List.getElem?_cons_zero, Option.some.injEq] at hj
        subst hj
        rw [List.set_cons_zero, List.set_cons_zero]
      | succ m =>
        rw [List.getElem?_cons_succ] at hj
        rw [List.set_cons_zero, List.set_cons_succ]
        exact cons_set_perm xs m x b hj
    | succ k =>
      rw [List.getElem?_cons_succ] at hi
      cases j with
      | zero =>
        rw [List.getElem?_cons_zero, Option.some.injEq] at hj
        subst hj
        rw [List.set_cons_succ, List.set_cons_zero]
        exact cons_set_perm xs k x a hi
      | succ m =>
        rw [List.getElem?_cons_succ] at hj
        rw [List.set_cons_succ, List.set_cons_succ]
        exact (ih k m a b hi hj).cons x

theorem listSwap_perm (l : List Char) (i j : Nat) : (listSwap l i j).Perm l := by
  unfold listSwap
  rcases hi : l[i]? with _ | a <;> rcases hj : l[j]? with _ | b <;>
    first
      | exact List.Perm.refl _
      | exact set_swap_perm l i j a b hi hj

theorem consistentShuffleLoop_perm (salt : List Char) :
    ∀ (i v p : Nat) (r : List Char), (consistentShuffleLoop salt i v p r).Perm r := by
  intro i
  induction i with
  | zero => intro v p r; exact List.Perm.refl _
  | succ i ih =>
    intro v p r
    rw [consistentShuffleLoop]
    exact (ih _ _ _).trans (listSwap_perm r (i + 1) _)

theorem consistentShuffle_perm (alphabet salt : List Char) :
    (consistentShuffle alphabet salt).Perm alphabet := by
  unfold consistentShuffle
  split
  · exact List.Perm.refl _
  · exact consistentShuffleLoop_perm salt _ 0 0 alphabet

/-! ## C8: digit strings -/

theorem getD_mem {l : List Char} {i : Nat} (h : i < l.length) (d : Char) :
    l.getD i d ∈ l := by
  rw [List.getD_eq_getElem?_getD, List.getElem?_eq_getElem h]
  exact List.getElem_mem h

theorem hashNumF_ne_nil {alph : List Char} (h2 : 2 ≤ alph.length) :
    ∀ (fuel n : Nat), n < fuel → hashNumF alph fuel n ≠ [] := by
  intro fuel
  induction fuel with
  | zero => intro n hn; omega
  | succ fuel _ =>
    intro n _
    rw [hashNumF]
    rw [if_neg (by omega)]
    split <;> simp

theorem hashNumF_mem {alph : List Char} (h2 : 2 ≤ alph.length) :
    ∀ (fuel n : Nat), n < fuel → ∀ c ∈ hashNumF alph fuel n, c ∈ alph := by
  intro fuel
  induction fuel with
  | zero => intro n hn; omega
  | succ fuel ih =>
    intro n hn c hc
    rw [hashNumF, if_neg (by omega)] at hc
    split at hc
    · rw [List.mem_singleton] at hc
      subst hc
      exact getD_mem (Nat.mod_lt n (by omega)) ' '
    · rcases List.mem_append.mp hc with h | h
      · rename_i hge
        exact ih (n / alph.length) (by
          have := Nat.div_lt_self (by omega : 0 < n) h2
          omega) c h
      · rw [List.mem_singleton] at h
        subst h
        exact getD_mem (Nat.mod_lt n (by omega)) ' '

theorem charIdx_getD_of_nodup :
    ∀ (l : List Char), l.Nodup → ∀ i, i < l.length →
      charIdx l (l.getD i ' ') = some i := by
  intro l
  induction l with
  | nil => intro _ i hi; simp at hi
  | cons a rest ih =>
    intro hnd i hi
    cases i with
    | zero => simp [charIdx]
    | succ i =>
      have hi' : i < rest.length := by simpa using hi
      have hne : a ≠ rest.getD i ' ' := by
        intro he
        exact (List.nodup_cons.mp hnd).1 (he ▸ getD_mem hi' ' ')
      rw [show (a :: rest).getD (i + 1) ' ' = rest.getD i ' ' from rfl]
      rw [charIdx, if_neg hne, ih (List.nodup_cons.mp hnd).2 i hi']
      rfl

theorem unhashCore_append (alph : List Char) :
    ∀ (xs ys : List Char) (acc : Nat),
      unhashCore alph (xs ++ ys) acc =
        match unhashCore alph xs acc with
        | none => none
        | some a => unhashCore alph ys a := by
  intro xs
  induction xs with
  | nil => intro ys acc; rfl
  | cons c xs ih =>
    intro ys acc
    rw [List.cons_append, unhashCore, unhashCore]
    rcases charIdx alph c with _ | pos
    · rfl
    · exact ih ys _

theorem unhashCore_singleton (alph : List Char) (c : Char) (acc : Nat) :
    unhashCore alph [c] acc =
      (charIdx alph c).map (fun pos => acc * alph.length + pos) := by
  rcases h : charIdx alph c with _ | pos <;> simp [unhashCore, h]

theorem unhash_hashNumF {alph : List Char} (hnd : alph.Nodup)
    (h2 : 2 ≤ alph.length) :
    ∀ (fuel n : Nat), n < fuel →
      unhashNum alph (hashNumF alph fuel n) = some n := by
  intro fuel
  induction fuel with
  | zero => intro n hn; omega
  | succ fuel ih =>
    intro n hn
    rw [hashNumF, if_neg (by omega)]
    split
    · rename_i hlt
      unfold unhashNum unhashCore
      rw [Nat.mod_eq_of_lt hlt, charIdx_getD_of_nodup alph hnd n hlt]
      simp [unhashCore]
    · rename_i hge
      have hq : n / alph.length < fuel := by
        have := Nat.div_lt_self (by omega : 0 < n) h2
        omega
      unfold unhashNum
      rw [unhashCore_append]
      have hih := ih (n / alph.length) hq
      unfold unhashNum at hih
      rw [hih]
      show unhashCore alph [alph.getD (n % alph.length) ' '] (n / alph.length) =
        some n
      rw [unhashCore_singleton,
        charIdx_getD_of_nodup alph hnd _ (Nat.mod_lt n (by omega))]
      rw [Option.map_some', Nat.mul_comm]
      exact congrArg some (Nat.div_add_mod n alph.length)

theorem unhash_hashNum {alph : List Char} (hnd : alph.Nodup)
    (h2 : 2 ≤ alph.length) (n : Nat) :
    unhashNum alph (hashNum alph n) = some n :=
  unhash_hashNumF hnd h2 (n + 1) n (Nat.lt_succ_self n)

theorem hashNum_ne_nil {alph : List Char} (h2 : 2 ≤ alph.length) (n : Nat) :
    hashNum alph n ≠ [] :=
  hashNumF_ne_nil h2 (n + 1) n (Nat.lt_succ_self n)

theorem hashNum_mem {alph : List Char} (h2 : 2 ≤ alph.length) (n : Nat) :
    ∀ c ∈ hashNum alph n, c ∈ alph :=
  hashNumF_mem h2 (n + 1) n (Nat.lt_succ_self n)

/-! ## C8: splitting on guards and separators -/

theorem contains_of_mem {l : List Char} {c : Char} (h : c ∈ l) :
    l.contains c = true :=
  List.elem_eq_true_of_mem h

theorem contains_eq_false_of_not_mem {l : List Char} {c : Char} (h : c ∉ l) :
    l.contains c = false := by
  rcases hc : l.contains c with _ | _
  · rfl
  · exact absurd (List.elem_iff.mp hc) h

theorem splitOnChars_ne_nil (seps : List Char) :
    ∀ l, splitOnChars seps l ≠ [] := by
  intro l
  cases l with
  | nil => simp [splitOnChars]
  | cons c rest =>
    rw [splitOnChars]
    split
    · simp
    · split <;> simp

theorem splitOnChars_sepFree (seps : List Char) :
    ∀ l, (∀ c ∈ l, c ∉ seps) → splitOnChars seps l = [l] := by
  intro l
  induction l with
  | nil => intro _; rfl
  | cons c rest ih =>
    intro h
    rw [splitOnChars, ih (fun x hx => h x (List.mem_cons_of_mem _ hx))]
    simp [contains_eq_false_of_not_mem (h c (List.mem_cons_self c rest)),
      h c (List.mem_cons_self c rest)]

theorem splitOnChars_append_sep (seps : List Char) (g : Char)
    (hg : g ∈ seps) :
    ∀ (a rest : List Char), (∀ c ∈ a, c ∉ seps) →
      splitOnChars seps (a ++ g :: rest) = a :: splitOnChars seps rest := by
  intro a
  induction a with
  | nil =>
    intro rest _
    rw [List.nil_append, splitOnChars]
    rcases h : splitOnChars seps rest with _ | ⟨s, ss⟩
    · exact absurd h (splitOnChars_ne_nil seps rest)
    · simp [contains_of_mem hg, hg]
  | cons c a' ih =>
    intro rest h
    rw [List.cons_append, splitOnChars,
      ih rest (fun x hx => h x (List.mem_cons_of_mem _ hx))]
    simp [contains_eq_false_of_not_mem (h c (List.mem_cons_self _ _)),
      h c (List.mem_cons_self _ _)]

/-! ## C8: concrete facts about the repository keying -/

theorem rh_alphabet_length : rhKeys.alphabet.length = 24 := by decide

theorem rh_alphabet_nodup : rhKeys.alphabet.Nodup := by decide

theorem rh_guards_length : rhKeys.guards.length = 3 := by decide

theorem rh_minLength : rhKeys.minLength = 7 := by decide

theorem rh_alphabet_guard_free :
    ∀ c ∈ rhKeys.alphabet, c ∉ rhKeys.guards := by decide

theorem rh_alphabet_sep_free :
    ∀ c ∈ rhKeys.alphabet, c ∉ rhKeys.seps := by decide

/-! ## C8: the padding loop -/

theorem padLoopF_of_le {m : Nat} {a r : List Char} (h : m ≤ r.length) :
    ∀ fuel, padLoopF m fuel a r = r := by
  intro fuel
  cases fuel with
  | zero => rfl
  | succ fuel => rw [padLoopF, if_pos h]

theorem padLoop_of_le {m : Nat} {a r : List Char} (h : m ≤ r.length) :
    padLoop m a r = r :=
  padLoopF_of_le h _

theorem padLoopF_succ_of_lt {m : Nat} {a r : List Char} (hlt : r.length < m)
    (hne : a.isEmpty = false) (fuel : Nat) :
    padLoopF m (fuel + 1) a r =
      padLoopF m fuel (consistentShuffle a a)
        (if 0 < ((consistentShuffle a a).drop (a.length / 2) ++ r ++
            (consistentShuffle a a).take (a.length / 2)).length - m then
          (((consistentShuffle a a).drop (a.length / 2) ++ r ++
            (consistentShuffle a a).take (a.length / 2)).drop
              ((((consistentShuffle a a).drop (a.length / 2) ++ r ++
                (consistentShuffle a a).take (a.length / 2)).length - m) / 2)).take m
        else
          (consistentShuffle a a).drop (a.length / 2) ++ r ++
            (consistentShuffle a a).take (a.length / 2)) := by
  rw [padLoopF, if_neg (by omega), if_neg (by simp [hne])]

/-! ## C8: the single-number encoding, named piecewise -/

/-! ## C8: the single-number round trip and the rejection of non-encodings -/

/-- One `encodeStep` pass over a single number, with every argument generic. -/
theorem encodeStep_single (k : HashKeys) (lottery : Char) (n i : Nat)
    (alphabet acc : List Char) :
    encodeStep k lottery [n] i alphabet acc =
      (acc ++ hashNum (consistentShuffle alphabet
          ((lottery :: (k.salt ++ alphabet)).take alphabet.length)) n,
        consistentShuffle alphabet
          ((lottery :: (k.salt ++ alphabet)).take alphabet.length)) := rfl

/-- `encodeList` on a single number, written with the named pieces. -/
theorem encodeList_single (id : Nat) :
    encodeList rhKeys [id] =
      some (padLoop rhKeys.minLength (rhAlpha id)
        (padGuards rhKeys (id % 100) (rhLottery id :: rhDigits id))) := by
  rw [encodeList, if_neg (by simp)]
  rw [show ([id].enum.map (fun p => p.2 % (p.1 + 100))).sum = id % 100 from by
    simp [List.enum, List.enumFrom]]
  show some (padLoop rhKeys.minLength
      (encodeStep rhKeys (rhLottery id) [id] 0 rhKeys.alphabet [rhLottery id]).2
      (padGuards rhKeys (id % 100)
        (encodeStep rhKeys (rhLottery id) [id] 0 rhKeys.alphabet [rhLottery id]).1)) = _
  rw [encodeStep_single]
  rw [show rhDigits id = hashNum (rhAlpha id) id from rfl,
      show rhAlpha id = consistentShuffle rhKeys.alphabet
        ((rhLottery id :: (rhKeys.salt ++ rhKeys.alphabet)).take
          rhKeys.alphabet.length) from rfl]
  rw [List.singleton_append]

theorem rhAlpha_perm (id : Nat) : (rhAlpha id).Perm rhKeys.alphabet :=
  consistentShuffle_perm _ _

theorem rhAlpha_nodup (id : Nat) : (rhAlpha id).Nodup :=
  (rhAlpha_perm id).nodup_iff.mpr rh_alphabet_nodup

theorem rhAlpha_length (id : Nat) : (rhAlpha id).length = 24 :=
  (rhAlpha_perm id).length_eq.trans rh_alphabet_length

theorem rhAlpha_two_le (id : Nat) : 2 ≤ (rhAlpha id).length := by
  rw [rhAlpha_length]; omega

theorem rhAlpha_isEmpty (id : Nat) : (rhAlpha id).isEmpty = false := by
  cases h : rhAlpha id with
  | nil => have h24 := rhAlpha_length id; rw [h] at h24; simp at h24
  | cons a l => rfl

theorem rhAlpha_mem (id : Nat) {c : Char} (h : c ∈ rhAlpha id) :
    c ∈ rhKeys.alphabet := (rhAlpha_perm id).mem_iff.mp h

theorem rhLottery_mem (id : Nat) : rhLottery id ∈ rhKeys.alphabet :=
  getD_mem (Nat.mod_lt _ (by rw [rh_alphabet_length]; omega)) ' '

theorem rhDigits_ne_nil (id : Nat) : rhDigits id ≠ [] :=
  hashNum_ne_nil (rhAlpha_two_le id) id

theorem rhDigits_length_pos (id : Nat) : 0 < (rhDigits id).length :=
  List.length_pos.mpr (rhDigits_ne_nil id)

theorem rhDigits_mem (id : Nat) : ∀ c ∈ rhDigits id, c ∈ rhKeys.alphabet :=
  fun c hc => rhAlpha_mem id (hashNum_mem (rhAlpha_two_le id) id c hc)

theorem rhResult_guard_free (id : Nat) :
    ∀ c ∈ rhLottery id :: rhDigits id, c ∉ rhKeys.guards := by
  intro c hc
  rcases List.mem_cons.mp hc with h | h
  · subst h; exact rh_alphabet_guard_free _ (rhLottery_mem id)
  · exact rh_alphabet_guard_free _ (rhDigits_mem id c h)

theorem rhDigits_sep_free (id : Nat) :
    ∀ c ∈ rhDigits id, c ∉ rhKeys.seps :=
  fun c hc => rh_alphabet_sep_free c (rhDigits_mem id c hc)

/-- One `decodeLoop` pass on a non-empty segment list, every argument generic. -/
theorem decodeLoop_cons (k : HashKeys) (lottery : Char) (sub : List Char)
    (rest : List (List Char)) (alphabet : List Char) (acc : List Nat) :
    decodeLoop k lottery (sub :: rest) alphabet acc =
      match unhashNum (consistentShuffle alphabet
          ((lottery :: (k.salt ++ alphabet)).take alphabet.length)) sub with
      | none => none
      | some n => decodeLoop k lottery rest (consistentShuffle alphabet
          ((lottery :: (k.salt ++ alphabet)).take alphabet.length)) (acc ++ [n]) := rfl

/-- Decoding the digit part of a single-number hash recovers the number. -/
theorem decode_middle (id : Nat) :
    decodeLoop rhKeys (rhLottery id) (splitOnChars rhKeys.seps (rhDigits id))
      rhKeys.alphabet [] = some [id] := by
  rw [splitOnChars_sepFree _ _ (rhDigits_sep_free id)]
  rw [decodeLoop_cons]
  rw [← show rhAlpha id = consistentShuffle rhKeys.alphabet
      ((rhLottery id :: (rhKeys.salt ++ rhKeys.alphabet)).take
        rhKeys.alphabet.length) from rfl]
  rw [show rhDigits id = hashNum (rhAlpha id) id from rfl]
  rw [unhash_hashNum (rhAlpha_nodup id) (rhAlpha_two_le id)]
  rfl

theorem rawDecode_split_one (k : HashKeys) (E : List Char) (L : Char)
    (D : List Char) (h : splitOnChars k.guards E = [L :: D]) :
    rawDecode k E = decodeLoop k L (splitOnChars k.seps D) k.alphabet [] := by
  unfold rawDecode
  rw [h]
  rfl

theorem rawDecode_split_two (k : HashKeys) (E p : List Char) (L : Char)
    (D : List Char) (h : splitOnChars k.guards E = [p, L :: D]) :
    rawDecode k E = decodeLoop k L (splitOnChars k.seps D) k.alphabet [] := by
  unfold rawDecode
  rw [h]
  rfl

theorem rawDecode_split_three (k : HashKeys) (E p : List Char) (L : Char)
    (D s : List Char) (h : splitOnChars k.guards E = [p, L :: D, s]) :
    rawDecode k E = decodeLoop k L (splitOnChars k.seps D) k.alphabet [] := by
  unfold rawDecode
  rw [h]
  rfl

theorem padGuards_of_le (k : HashKeys) (nh : Nat) (R : List Char)
    (h : k.minLength ≤ R.length) : padGuards k nh R = R := by
  unfold padGuards
  rw [if_pos h]

theorem padGuards_one (k : HashKeys) (hg : 0 < k.guards.length) (nh : Nat)
    (R : List Char) (h : R.length + 1 = k.minLength) :
    ∃ g1 ∈ k.guards, padGuards k nh R = g1 :: R := by
  refine ⟨k.guards.getD ((nh + (R.headD ' ').toNat) % k.guards.length) ' ',
    getD_mem (Nat.mod_lt _ hg) ' ', ?_⟩
  unfold padGuards
  rw [if_neg (by omega)]
  dsimp only
  rw [if_pos (by simp only [List.length_cons]; omega)]

theorem padGuards_two (k : HashKeys) (hg : 0 < k.guards.length) (nh : Nat)
    (R : List Char) (h : R.length + 2 ≤ k.minLength) :
    ∃ g1 ∈ k.guards, ∃ g2 ∈ k.guards,
      padGuards k nh R = g1 :: (R ++ [g2]) := by
  refine ⟨k.guards.getD ((nh + (R.headD ' ').toNat) % k.guards.length) ' ',
    getD_mem (Nat.mod_lt _ hg) ' ',
    k.guards.getD ((nh + ((k.guards.getD ((nh + (R.headD ' ').toNat) %
        k.guards.length) ' ' :: R).getD 2 ' ').toNat) % k.guards.length) ' ',
    getD_mem (Nat.mod_lt _ hg) ' ', ?_⟩
  unfold padGuards
  rw [if_neg (by omega)]
  dsimp only
  rw [if_neg (by simp only [List.length_cons]; omega)]
  rw [List.cons_append]

theorem padGuards_length_ge (k : HashKeys) (nh : Nat) (R : List Char) :
    R.length ≤ (padGuards k nh R).length := by
  unfold padGuards
  split
  · exact Nat.le_refl _
  · dsimp only
    split
    · simp only [List.length_cons]; omega
    · simp only [List.length_append, List.length_cons, List.length_nil]; omega

theorem padLoopF_length_ge (m : Nat) :
    ∀ (fuel : Nat) (a r : List Char), r.length ≤ (padLoopF m fuel a r).length := by
  intro fuel
  induction fuel with
  | zero => intro a r; exact Nat.le_refl _
  | succ fuel ih =>
    intro a r
    rw [padLoopF]
    split
    · exact Nat.le_refl _
    · split
      · exact Nat.le_refl _
      · rename_i hlt hne
        dsimp only
        refine Nat.le_trans ?_ (ih _ _)
        split
        · simp only [List.length_take, List.length_drop, List.length_append]
          omega
        · simp only [List.length_append, List.length_drop, List.length_take]
          omega

theorem padLoop_length_ge (m : Nat) (a r : List Char) :
    r.length ≤ (padLoop m a r).length := padLoopF_length_ge m (m + 1) a r

/-- Every single-number encoding is at least two characters long. -/
theorem encodeList_min_two (x : Nat) (E : List Char)
    (h : encodeList rhKeys [x] = some E) : 2 ≤ E.length := by
  rw [encodeList_single] at h
  have hE := Option.some_inj.mp h
  subst hE
  calc (2 : Nat) ≤ (rhLottery x :: rhDigits x).length := by
        simp only [List.length_cons]
        have := rhDigits_length_pos x
        omega
    _ ≤ (padGuards rhKeys (x % 100) (rhLottery x :: rhDigits x)).length :=
        padGuards_length_ge _ _ _
    _ ≤ _ := padLoop_length_ge _ _ _

/-- The centred `minLength`-window of the wrapped result, in terms of the
wrapping pieces. -/
theorem window_take_drop (X P Y : List Char) (d q : Nat)
    (hd : d ≤ X.length) (hq : X.length - d + P.length + q = 7) :
    ((X ++ P ++ Y).drop d).take 7 = X.drop d ++ (P ++ Y.take q) := by
  rw [List.drop_append_eq_append_drop, List.drop_append_eq_append_drop,
    Nat.sub_eq_zero_of_le hd, List.drop_zero,
    show d - (X ++ P).length = 0 from by rw [List.length_append]; omega,
    List.drop_zero]
  rw [List.take_append_eq_append_take]
  rw [List.take_of_length_le (show (X.drop d ++ P).length ≤ 7 from by
    rw [List.length_append, List.length_drop]; omega)]
  rw [List.length_append, List.length_drop]
  rw [show 7 - (X.length - d + P.length) = q from by omega]
  rw [List.append_assoc]

/-- One `padLoopF` pass on a short two-guard result over the 24-character
alphabet: a single wrap-and-trim reaches exactly `minLength`. -/
theorem padLoop_small (id : Nat) (P : List Char) (h4 : 4 ≤ P.length)
    (h6 : P.length ≤ 6) :
    padLoop 7 (rhAlpha id) P =
      (((consistentShuffle (rhAlpha id) (rhAlpha id)).drop 12 ++ P ++
        (consistentShuffle (rhAlpha id) (rhAlpha id)).take 12).drop
          ((P.length + 17) / 2)).take 7 := by
  have hA : (rhAlpha id).length = 24 := rhAlpha_length id
  have hA2 : (consistentShuffle (rhAlpha id) (rhAlpha id)).length = 24 :=
    (consistentShuffle_perm _ _).length_eq.trans hA
  unfold padLoop
  rw [padLoopF_succ_of_lt (by omega) (rhAlpha_isEmpty id) 7]
  rw [hA]
  simp only [show (24 : Nat) / 2 = 12 from rfl]
  have hT : ((consistentShuffle (rhAlpha id) (rhAlpha id)).drop 12 ++ P ++
      (consistentShuffle (rhAlpha id) (rhAlpha id)).take 12).length =
      P.length + 24 := by
    simp only [List.length_append, List.length_drop, List.length_take, hA2]
    omega
  rw [if_pos (by rw [hT]; omega)]
  rw [hT]
  rw [padLoopF_of_le (by
    simp only [List.length_take, List.length_drop, List.length_append, hA2]
    omega)]
  rw [show P.length + 24 - 7 = P.length + 17 from by omega]

/-- Decoding inverts the single-number encoding. -/
theorem rawDecode_encode (id : Nat) (E : List Char)
    (hE : encodeList rhKeys [id] = some E) : rawDecode rhKeys E = some [id] := by
  rw [encodeList_single, rh_minLength] at hE
  have hg3 : 0 < rhKeys.guards.length := by rw [rh_guards_length]; omega
  have hDpos := rhDigits_length_pos id
  have hRg := rhResult_guard_free id
  by_cases h6 : 6 ≤ (rhDigits id).length
  · rw [padGuards_of_le _ _ _ (by
      rw [rh_minLength]; simp only [List.length_cons]; omega)] at hE
    rw [padLoop_of_le (by simp only [List.length_cons]; omega)] at hE
    have hEeq := Option.some_inj.mp hE
    subst hEeq
    rw [rawDecode_split_one rhKeys _ (rhLottery id) (rhDigits id)
      (splitOnChars_sepFree _ _ hRg)]
    exact decode_middle id
  · by_cases h5 : (rhDigits id).length = 5
    · obtain ⟨g1, hg1, hpad⟩ := padGuards_one rhKeys hg3 (id % 100)
        (rhLottery id :: rhDigits id) (by
          rw [rh_minLength]; simp only [List.length_cons]; omega)
      rw [hpad, padLoop_of_le (by simp only [List.length_cons]; omega)] at hE
      have hEeq := Option.some_inj.mp hE
      subst hEeq
      have hsplit : splitOnChars rhKeys.guards
          (g1 :: (rhLottery id :: rhDigits id)) =
          [[], rhLottery id :: rhDigits id] := by
        have h0 := splitOnChars_append_sep rhKeys.guards g1 hg1 []
          (rhLottery id :: rhDigits id)
          (by intro c hc; exact absurd hc (List.not_mem_nil c))
        rw [List.nil_append] at h0
        rw [h0, splitOnChars_sepFree _ _ hRg]
      rw [rawDecode_split_two rhKeys _ [] (rhLottery id) (rhDigits id) hsplit]
      exact decode_middle id
    · by_cases h4 : (rhDigits id).length = 4
      · obtain ⟨g1, hg1, g2, hg2, hpad⟩ := padGuards_two rhKeys hg3 (id % 100)
          (rhLottery id :: rhDigits id) (by
            rw [rh_minLength]; simp only [List.length_cons]; omega)
        rw [hpad, padLoop_of_le (by
          simp only [List.length_cons, List.length_append, List.length_nil]
          omega)] at hE
        have hEeq := Option.some_inj.mp hE
        subst hEeq
        have hsplit : splitOnChars rhKeys.guards
            (g1 :: ((rhLottery id :: rhDigits id) ++ [g2])) =
            [[], rhLottery id :: rhDigits id, []] := by
          have h0 := splitOnChars_append_sep rhKeys.guards g1 hg1 []
            ((rhLottery id :: rhDigits id) ++ [g2])
            (by intro c hc; exact absurd hc (List.not_mem_nil c))
          rw [List.nil_append] at h0
          have h1 := splitOnChars_append_sep rhKeys.guards g2 hg2
            (rhLottery id :: rhDigits id) [] hRg
          rw [h0, h1]
          rfl
        rw [rawDecode_split_three rhKeys _ [] (rhLottery id) (rhDigits id) []
          hsplit]
        exact decode_middle id
      · have hD3 : (rhDigits id).length ≤ 3 := by omega
        obtain ⟨g1, hg1, g2, hg2, hpad⟩ := padGuards_two rhKeys hg3 (id % 100)
          (rhLottery id :: rhDigits id) (by
            rw [rh_minLength]; simp only [List.length_cons]; omega)
        rw [hpad] at hE
        rw [padLoop_small id _ (by
            simp only [List.length_cons, List.length_append, List.length_nil]
            omega)
          (by
            simp only [List.length_cons, List.length_append, List.length_nil]
            omega)] at hE
        set P := g1 :: ((rhLottery id :: rhDigits id) ++ [g2]) with hPdef
        set A2 := consistentShuffle (rhAlpha id) (rhAlpha id) with hA2def
        have hA2len : A2.length = 24 := by
          rw [hA2def]
          exact (consistentShuffle_perm _ _).length_eq.trans (rhAlpha_length id)
        have hXlen : (A2.drop 12).length = 12 := by
          rw [List.length_drop, hA2len]
        have hYlen : (A2.take 12).length = 12 := by
          rw [List.length_take, hA2len]
          all_goals omega
        have hPlen : P.length = (rhDigits id).length + 3 := by
          rw [hPdef]
          simp only [List.length_cons, List.length_append, List.length_nil]
          all_goals omega
        rw [window_take_drop (A2.drop 12) P (A2.take 12) ((P.length + 17) / 2)
          (7 - ((A2.drop 12).length - (P.length + 17) / 2) - P.length)
          (by omega) (by omega)] at hE
        have hEeq := Option.some_inj.mp hE
        subst hEeq
        have hA2mem : ∀ c ∈ A2, c ∈ rhKeys.alphabet := by
          intro c hc
          rw [hA2def] at hc
          exact rhAlpha_mem id ((consistentShuffle_perm _ _).mem_iff.mp hc)
        have hpreg : ∀ c ∈ (A2.drop 12).drop ((P.length + 17) / 2),
            c ∉ rhKeys.guards :=
          fun c hc => rh_alphabet_guard_free c
            (hA2mem c (List.drop_subset _ _ (List.drop_subset _ _ hc)))
        have hZg : ∀ c ∈ (A2.take 12).take
            (7 - ((A2.drop 12).length - (P.length + 17) / 2) - P.length),
            c ∉ rhKeys.guards :=
          fun c hc => rh_alphabet_guard_free c
            (hA2mem c (List.take_subset _ _ (List.take_subset _ _ hc)))
        have hform : P ++ (A2.take 12).take
            (7 - ((A2.drop 12).length - (P.length + 17) / 2) - P.length) =
            g1 :: ((rhLottery id :: rhDigits id) ++ (g2 :: (A2.take 12).take
              (7 - ((A2.drop 12).length - (P.length + 17) / 2) - P.length))) := by
          rw [hPdef]
          simp
        have hsplit : splitOnChars rhKeys.guards
            ((A2.drop 12).drop ((P.length + 17) / 2) ++ (P ++ (A2.take 12).take
              (7 - ((A2.drop 12).length - (P.length + 17) / 2) - P.length))) =
            [(A2.drop 12).drop ((P.length + 17) / 2),
              rhLottery id :: rhDigits id,
              (A2.take 12).take
                (7 - ((A2.drop 12).length - (P.length + 17) / 2) - P.length)] := by
          rw [hform]
          rw [splitOnChars_append_sep rhKeys.guards g1 hg1 _ _ hpreg]
          rw [splitOnChars_append_sep rhKeys.guards g2 hg2 _ _ hRg]
          rw [splitOnChars_sepFree _ _ hZg]
        rw [rawDecode_split_three rhKeys _ _ (rhLottery id) (rhDigits id) _
          hsplit]
        exact decode_middle id

theorem toList_mk (l : List Char) : (String.mk l).toList = l := rfl

/-- A decode whose parse, sanity check and arity check all pass. -/
theorem decodeHashIDWith_mk_ok (k : HashKeys) (E : List Char) (id : Nat)
    (henc : encodeList k [id] = some E)
    (hraw : rawDecode k E = some [id]) :
    decodeHashIDWith k (String.mk E) = .ok id := by
  unfold decodeHashIDWith
  rw [toList_mk, hraw]
  dsimp only
  rw [henc]
  rw [Option.getD_some]
  rw [if_neg (by simp), if_neg (by simp)]
  rfl

/-- A successful decode names a string that is the encoding of its result. -/
theorem decodeHashID_ok_encodes (s : String) (x : Nat)
    (h : decodeHashID s = .ok x) : encodeList rhKeys [x] = some s.toList := by
  unfold decodeHashID decodeHashIDWith at h
  rcases hraw : rawDecode rhKeys s.toList with _ | ids
  · rw [hraw] at h
    exact Except.noConfusion h
  · rw [hraw] at h
    dsimp only at h
    split at h
    · exact Except.noConfusion h
    · rename_i hsan
      split at h
      · exact Except.noConfusion h
      · rename_i hone
        have hlen : ids.length = 1 := not_ne_iff.mp hone
        obtain ⟨a, ha⟩ := List.length_eq_one.mp hlen
        subst ha
        have hx : a = x := by simpa using h
        subst hx
        have hs : String.mk ((encodeList rhKeys [a]).getD []) = s :=
          not_ne_iff.mp hsan
        rw [encodeList_single, Option.getD_some] at hs
        rw [← hs, toList_mk]
        exact encodeList_single a

/-- C8: the hashid codec round-trips and fails closed: for every id below
`2^63` (the wrapper's usable range) decoding the encoding returns exactly that
id, and every string that is not the single-number encoding of some id - a
malformed token, a token decoding to zero or several values, or a token
produced under a different keying - is rejected with an error. -/
theorem C8_hashid_round_trip :
    (∀ id : Nat, id < 2 ^ 63 → decodeHashID (rhHashID id) = .ok id) ∧
    (∀ s : String, (¬ ∃ x : Nat, encodeList rhKeys [x] = some s.toList) →
      ∃ e, decodeHashID s = .error e) := by
  constructor
  · intro id hid
    rw [rhHashID, if_pos hid]
    have henc := encodeList_single id
    rw [henc, Option.getD_some]
    exact decodeHashIDWith_mk_ok rhKeys _ id henc (rawDecode_encode id _ henc)
  · intro s hns
    cases hdec : decodeHashID s with
    | error e => exact ⟨e, rfl⟩
    | ok x => exact absurd ⟨x, decodeHashID_ok_encodes s x hdec⟩ hns

/-- Witness for C8: id 42 round-trips, and the one-character string "!" (not
an encoding: every encoding has at least two characters) is rejected. -/
theorem C8_witness :
    decodeHashID (rhHashID 42) = .ok 42 ∧
    (∃ e, decodeHashID "!" = .error e) := by
  constructor
  · exact C8_hashid_round_trip.1 42 (by norm_num)
  · refine C8_hashid_round_trip.2 "!" ?_
    rintro ⟨x, hx⟩
    have h2 := encodeList_min_two x _ hx
    have h1 : ("!".toList).length = 1 := by decide
    omega

end RhPos
